import Mathlib

/-!
A shallow embedding of the browser-extension storage engine
(`storage_api_browser_ext.ts`): a typed key/value layer ("yek"/"lav") over a
primitive string-keyed substrate, with node/edge repositories, association
bookkeeping, ingestion progress and a snapshot iterator, plus theorems about
the behaviour of these operations.

Asynchrony is immaterial to the verified properties: every operation is a
sequence of substrate reads followed by at most one batched write, so each is
embedded as a pure function from the substrate state to a result and a new
substrate state (`Except` captures the `throw` paths).  Fresh-identifier
generation (`generateNid`, `generateEid`) and the wall clock (`unixtime.now`)
are nondeterministic in the source and are passed in as explicit oracle
parameters.  Fire-and-forget change notifications (`NodeEvent.registerEvent`)
have no effect on stored data and are not modelled.
-/

namespace ArchStorage

/-- Node identifier (`Nid` in smuggler-api): an opaque string. -/
abbrev Nid := String

/-- Edge identifier (`Eid` in smuggler-api): an opaque string. -/
abbrev Eid := String

/-- Modelled from the spec: `OriginHash` (smuggler-api, not under `src/`) is an
opaque external-resource identifier; the engine only compares it for equality
and renders it into substrate key strings, so it is embedded as a string. -/
abbrev OriginHash := String

/-- Modelled from the spec: `OriginId` (smuggler-api, not under `src/`).  The
engine accesses exactly one field, `id`, both in `stringify` and in the
association comparisons. -/
@[ext]
structure OriginId where
  id : OriginHash
deriving DecidableEq

/-- Modelled from the spec: `UserExternalPipelineId` (smuggler-api, not under
`src/`).  Per spec §4.1 a composite pipeline id is projected onto the single
stable sub-field `pipeline_key`, which is the only field the engine reads. -/
@[ext]
structure UserExternalPipelineId where
  pipeline_key : String
deriving DecidableEq

/-- Modelled from the spec: `NodeType` (smuggler-api enum, not under `src/`);
only the default member `NodeType.Text` is referenced by the engine. -/
abbrev NodeType := Nat

def NodeType.Text : NodeType := 0

/-- Modelled from the spec: `TNodeJson` (smuggler-api, not under `src/`); the
spec data model lists a node as id, type tag, text, optional extended
attributes, optional index text, created-at, updated-at.  `text`, `extattrs`
and `index_text` are opaque payloads to the engine. -/
structure TNodeJson where
  nid : Nid
  ntype : NodeType
  text : Option String
  extattrs : Option String
  index_text : Option String
  created_at : Nat
  updated_at : Nat
deriving DecidableEq

/-- Modelled from the spec: `TEdgeJson` (smuggler-api, not under `src/`); an
edge has an id, the two endpoint ids, created/updated timestamps and a sticky
flag. -/
structure TEdgeJson where
  eid : Eid
  from_nid : Nid
  to_nid : Nid
  crtd : Nat
  upd : Nat
  is_sticky : Bool
deriving DecidableEq

/-- Modelled from the spec: `NodeCreatedVia` (smuggler-api, not under `src/`);
the engine only distinguishes the `autoIngestion` alternative, which carries
the pipeline id. -/
inductive NodeCreatedVia
  | autoIngestion (epid : UserExternalPipelineId)
  | manualAction
deriving DecidableEq

/-- `NodeTag`: a minimal projection of a node stored in the global listing. -/
structure NodeTag where
  nid : Nid
  created_at : Nat
deriving DecidableEq

/-- Modelled from the spec: `ResourceVisit` (smuggler-api, not under `src/`),
an opaque visit event. -/
structure ResourceVisit where
  timestamp : Nat
deriving DecidableEq

/-- Modelled from the spec: `ResourceAttention` (smuggler-api, not under
`src/`); the engine reads its `seconds` field. -/
structure ResourceAttention where
  seconds : Nat
  timestamp : Nat
deriving DecidableEq

/-- A visit entry as stored: the visit plus the optional reporting pipeline
(`ResourceVisit & \x7b reported_by?: UserExternalPipelineId \x7d`). -/
structure StoredVisit where
  visit : ResourceVisit
  reported_by : Option UserExternalPipelineId
deriving DecidableEq

/-- The value stored under an `origin->activity` key. -/
structure ActivityValue where
  visits : List StoredVisit
  attentions : List ResourceAttention
  total_seconds_of_attention : Nat
deriving DecidableEq

/-- The `direction` discriminant of `OriginToExtAssociationValue`
(`'from' | 'to'` in the source; renamed because `from` is a Lean keyword). -/
inductive AssocDirection
  | fromSide
  | toSide
deriving DecidableEq

/-- Modelled from the spec: `UserExternalAssociationType` (smuggler-api, not
under `src/`), an opaque association-type payload. -/
abbrev UserExternalAssociationType := String

/-- `OriginToExtAssociationValue`: one association entry in an origin's
bucket. -/
structure OriginToExtAssociationValue where
  direction : AssocDirection
  other : OriginId
  association : UserExternalAssociationType
deriving DecidableEq

/-- Modelled from the spec: `NodeSimilaritySearchInfo` (smuggler-api, not
under `src/`): an opaque embedding/index payload. -/
abbrev NodeSimilaritySearchInfo := String

/-- Modelled from the spec: `AccountInfo` (smuggler-api, not under `src/`):
a small opaque out-of-band blob. -/
abbrev AccountInfo := String

/-- The typed keys (`Yek` union in the source); each constructor is one
`GenericYek` kind with its key payload. -/
inductive Yek
  | allNids
  | nidToNode (key : Nid)
  | originToNid (key : OriginId)
  | nidToEdge (key : Nid)
  | originToActivity (key : OriginId)
  | extPipeline (key : UserExternalPipelineId)
  | extPipelineToNid (key : UserExternalPipelineId)
  | originToExtAssociation (key : OriginId)
  | nidToNodeSimilaritySearchInfo (key : Nid)
  | userAccountInfo
deriving DecidableEq

/-- The typed values (`Lav` union in the source); each constructor is one
`GenericLav` kind with its value payload.  For `nid->node` the optional
`auxiliary` data (`origin`, `created_via`) is flattened into two optional
fields. -/
inductive Lav
  | allNids (value : List NodeTag)
  | nidToNode (value : TNodeJson) (auxOrigin : Option OriginId)
      (auxCreatedVia : Option NodeCreatedVia)
  | originToNid (value : List Nid)
  | nidToEdge (value : List TEdgeJson)
  | originToActivity (value : ActivityValue)
  | extPipeline (ingested_until : Nat)
  | extPipelineToNid (value : List Nid)
  | originToExtAssociation (value : List OriginToExtAssociationValue)
  | nidToNodeSimilaritySearchInfo (value : NodeSimilaritySearchInfo)
  | userAccountInfo (value : AccountInfo)
deriving DecidableEq

/-- The `kind` discriminant of a key (`yek.yek.kind`). -/
def Yek.kind : Yek → String
  | .allNids => "all-nids"
  | .nidToNode _ => "nid->node"
  | .originToNid _ => "origin->nid"
  | .nidToEdge _ => "nid->edge"
  | .originToActivity _ => "origin->activity"
  | .extPipeline _ => "ext-pipe-id->progress"
  | .extPipelineToNid _ => "ext-pipe-id->nid"
  | .originToExtAssociation _ => "origin->ext-assoc"
  | .nidToNodeSimilaritySearchInfo _ => "nid->sim-search-node"
  | .userAccountInfo => "account-info"

/-- The `kind` discriminant of a value (`lav.lav.kind`). -/
def Lav.kind : Lav → String
  | .allNids _ => "all-nids"
  | .nidToNode _ _ _ => "nid->node"
  | .originToNid _ => "origin->nid"
  | .nidToEdge _ => "nid->edge"
  | .originToActivity _ => "origin->activity"
  | .extPipeline _ => "ext-pipe-id->progress"
  | .extPipelineToNid _ => "ext-pipe-id->nid"
  | .originToExtAssociation _ => "origin->ext-assoc"
  | .nidToNodeSimilaritySearchInfo _ => "nid->sim-search-node"
  | .userAccountInfo _ => "account-info"

/-- `isOfArrayKind`: whether a value is array-shaped (`Array.isArray` on the
stored value in the source). -/
def isOfArrayKind : Lav → Bool
  | .originToNid _ => true
  | .nidToEdge _ => true
  | .allNids _ => true
  | .extPipelineToNid _ => true
  | .originToExtAssociation _ => true
  | _ => false

/-- `YekLavStore.stringify`: maps a typed key to the unique substrate key
string. -/
def stringify : Yek → String
  | .allNids => "all-nids"
  | .nidToNode key => "nid->node:" ++ key
  | .originToNid key => "origin->nid:" ++ key.id
  | .nidToEdge key => "nid->edge:" ++ key
  | .originToActivity key => "origin->activity:" ++ key.id
  | .extPipeline key => "ext-pipe:" ++ key.pipeline_key
  | .extPipelineToNid key => "ext-pipe-id->nid:" ++ key.pipeline_key
  | .originToExtAssociation key => "origin->ext-assoc:" ++ key.id
  | .nidToNodeSimilaritySearchInfo key => "nid->sim-search-node:" ++ key
  | .userAccountInfo => "account-info"

/-! ### The substrate (`browser.Storage.StorageArea`): an association list of
string keys to stored values, later writes shadowing earlier ones. -/

/-- The substrate state: string key to stored value, most recent first. -/
abbrev Substrate := List (String × Lav)

def Substrate.empty : Substrate := []

/-- A single bulk-read of one key (`store.get(key)`). -/
def Substrate.getRec (s : Substrate) (k : String) : Option Lav :=
  (s.find? (fun p => p.1 == k)).map (fun p => p.2)

/-- Overwrite one key (one entry of the record object passed to
`store.set`). -/
def Substrate.put (s : Substrate) (k : String) (v : Lav) : Substrate :=
  (k, v) :: s.filter (fun p => p.1 != k)

/-- Unconditional deletion of keys (`store.remove(keys)`); missing keys are a
no-op. -/
def Substrate.removeKeys (s : Substrate) (ks : List String) : Substrate :=
  s.filter (fun p => !(ks.contains p.1))

/-- One bulk write (`store.set(records)`), applying every key/value pair of
the batch. -/
def bulkWrite (s : Substrate) (records : List (String × Lav)) : Substrate :=
  records.foldl (fun acc kv => acc.put kv.1 kv.2) s

/-! ### The Record Store (`class YekLavStore`) -/

/-- A typed key/value pair as passed to `set` and returned by the `prepare*`
helpers. -/
structure YekLav where
  yek : Yek
  lav : Lav
deriving DecidableEq

/-- The `throw` paths of the engine.  Each constructor carries the data the
source interpolates into the thrown `Error` message. -/
inductive StoreError
  /-- `set`: "Attempted to set a key/value pair of mismatching kinds". -/
  | mismatchedKinds (yekKind lavKind : String)
  /-- `set`: "Attempted to set more than 1 value for key". -/
  | duplicateKey (key : String)
  /-- `prepareAppend`: "Attempted to append a key/value pair of mismatching
  kinds". -/
  | appendMismatchedKinds (yekKind lavKind : String)
  /-- `prepareAppend`: "prepareAppend only works/makes sense for arrays". -/
  | appendNonArray
  /-- `prepareRemoval`: "prepareRemoval only works/makes sense for arrays". -/
  | removalNonArray
  /-- A stored value whose shape disagrees with its key's kind.  The untyped
  source would instead silently operate on the ill-shaped value; such a state
  is unreachable through the engine's own writers, and the typed embedding
  cannot represent the resulting heterogeneous data. -/
  | typeConfusion
  /-- `getNode`/`updateNode`: "Failed to get/update node ... because it wasn't
  found". -/
  | nodeNotFound (nid : Nid)
  /-- `Iterator.next`: "Failed to find node for nid ...". -/
  | iteratorNodeNotFound (nid : Nid)
  /-- `recordAssociation`: "... association does not exist, but its reverse
  version does. Data is unexpectedly inconsistent." (carries both origin
  identifiers). -/
  | assocInconsistent (fromId toId : OriginHash)
  /-- `addExternalUserActivity`: invalid request. -/
  | invalidActivity
  /-- `bulkDeleteNodes`: "Tried to bulk-delete nodes via an unimplemented
  criteria". -/
  | bulkDeleteUnsupported
  /-- `throwUnimplementedError`: a deliberately unimplemented endpoint. -/
  | unimplemented (endpoint : String)
deriving DecidableEq

namespace YekLavStore

/-- The duplicate-key guarded accumulation of `set`'s `records` object: each
item's key is refused if an earlier item already claimed it. -/
def buildRecords : List YekLav → List (String × Lav) →
    Except StoreError (List (String × Lav))
  | [], acc => .ok acc
  | item :: rest, acc =>
    let key := stringify item.yek
    if (acc.map (fun p => p.1)).contains key then
      .error (.duplicateKey key)
    else
      buildRecords rest (acc ++ [(key, item.lav)])

/-- `YekLavStore.set`: kind check over the whole batch, then the duplicate-key
check while building the record object, then one bulk substrate write. -/
def set (s : Substrate) (items : List YekLav) : Except StoreError Substrate :=
  match items.find? (fun item => item.yek.kind != item.lav.kind) with
  | some item => .error (.mismatchedKinds item.yek.kind item.lav.kind)
  | none =>
    match buildRecords items [] with
    | .error e => .error e
    | .ok records => .ok (bulkWrite s records)

/-- `YekLavStore.get` (single-key overloads). -/
def get (s : Substrate) (yek : Yek) : Option Lav :=
  s.getRec (stringify yek)

/-- The accumulation of the `keyToYek` map of the batch overload of `get`
(`Map.set` per requested yek): insertion order is kept for the first
occurrence of each key, a repeated key only replaces the mapped yek. -/
def keyToYekAux (acc : List (String × Yek)) : List Yek → List (String × Yek)
  | [] => acc
  | y :: rest =>
    let k := stringify y
    if acc.any (fun p => p.1 == k) then
      keyToYekAux (acc.map (fun p => if p.1 == k then (k, y) else p)) rest
    else
      keyToYekAux (acc ++ [(k, y)]) rest

/-- The `keyToYek` map of the batch overload of `get`. -/
def keyToYek (yeks : List Yek) : List (String × Yek) :=
  keyToYekAux [] yeks

/-- `YekLavStore.get` (batch overload): deduplicates the requested keys, then
keeps only the keys present in the substrate, silently dropping the rest. -/
def getBatch (s : Substrate) (yeks : List Yek) : List YekLav :=
  (keyToYek yeks).filterMap
    (fun p => (s.getRec p.1).map (fun lav => YekLav.mk p.2 lav))

/-- Concatenation of two array-shaped values of the same kind
(`value.concat(appended_lav.lav.value)`); `none` when the shapes disagree, a
situation the untyped source would render as a heterogeneous array. -/
def Lav.appendValue : Lav → Lav → Option Lav
  | .allNids v, .allNids w => some (.allNids (v ++ w))
  | .originToNid v, .originToNid w => some (.originToNid (v ++ w))
  | .nidToEdge v, .nidToEdge w => some (.nidToEdge (v ++ w))
  | .extPipelineToNid v, .extPipelineToNid w => some (.extPipelineToNid (v ++ w))
  | .originToExtAssociation v, .originToExtAssociation w =>
      some (.originToExtAssociation (v ++ w))
  | _, _ => none

/-- `YekLavStore.prepareAppend`: kind check, read the current array-valued
record (absent read as empty), and return the proposed appended record without
writing. -/
def prepareAppend (s : Substrate) (yek : Yek) (appended : Lav) :
    Except StoreError YekLav :=
  if yek.kind != appended.kind then
    .error (.appendMismatchedKinds yek.kind appended.kind)
  else
    match get s yek with
    | none => .ok ⟨yek, appended⟩
    | some lav =>
      if isOfArrayKind lav then
        match Lav.appendValue lav appended with
        | some newLav => .ok ⟨yek, newLav⟩
        | none => .error .typeConfusion
      else
        .error .appendNonArray

/-- The kind-directed filtering step of `prepareRemoval`: `all-nids` and
`origin->nid` drop entries whose nid is in the criteria, `nid->edge` drops
edges either of whose endpoints is in the criteria, any other kind leaves the
value untouched (the `switch` has no default case). -/
def removeMatching (yek : Yek) (lav : Lav) (criteria : List Nid) : Option Lav :=
  match yek with
  | .allNids =>
    match lav with
    | .allNids v => some (.allNids (v.filter (fun t => !(criteria.contains t.nid))))
    | _ => none
  | .originToNid _ =>
    match lav with
    | .originToNid v => some (.originToNid (v.filter (fun n => !(criteria.contains n))))
    | _ => none
  | .nidToEdge _ =>
    match lav with
    | .nidToEdge v =>
      some (.nidToEdge (v.filter
        (fun e => !(criteria.contains e.from_nid) && !(criteria.contains e.to_nid))))
    | _ => none
  | _ => some lav

/-- The empty array-shaped value of a key's kind, used by the `prepare*`
helpers when the record is absent (`lav?.lav.value ?? []`). -/
def Yek.emptyArrayLav : Yek → Option Lav
  | .allNids => some (.allNids [])
  | .originToNid _ => some (.originToNid [])
  | .nidToEdge _ => some (.nidToEdge [])
  | .extPipelineToNid _ => some (.extPipelineToNid [])
  | .originToExtAssociation _ => some (.originToExtAssociation [])
  | _ => none

/-- `YekLavStore.prepareRemoval`: read the current array-valued record (absent
read as empty), strip the entries matching the criteria, and return the
proposed record without writing. -/
def prepareRemoval (s : Substrate) (yek : Yek) (criteria : List Nid) :
    Except StoreError YekLav :=
  match get s yek with
  | some lav =>
    if isOfArrayKind lav then
      match removeMatching yek lav criteria with
      | some newLav => .ok ⟨yek, newLav⟩
      | none => .error .typeConfusion
    else
      .error .removalNonArray
  | none =>
    match Yek.emptyArrayLav yek with
    | some e => .ok ⟨yek, e⟩
    | none => .error .typeConfusion

/-- `YekLavStore.remove`. -/
def remove (s : Substrate) (yeks : List Yek) : Substrate :=
  s.removeKeys (yeks.map stringify)

end YekLavStore

/-! ### Node repository -/

/-- Modelled from the spec: `TNode` (smuggler-api, not under `src/`) is the
runtime representation of a node; per spec §8 the round trip through
`NodeUtil.fromJson` preserves the content fields, so the embedding identifies
the two representations. -/
abbrev TNode := TNodeJson

/-- Modelled from the spec: `NodeUtil.fromJson` (smuggler-api, not under
`src/`) converts the persisted JSON form into the runtime node, preserving
all content fields. -/
def NodeUtil.fromJson (json : TNodeJson) : TNode := json

/-- `NodeCreateArgs` (the fields the engine reads). -/
structure NodeCreateArgs where
  text : Option String
  index_text : Option String
  extattrs : Option String
  ntype : Option NodeType
  origin : Option OriginId
  created_via : Option NodeCreatedVia
  from_nid : Option (List Nid)
  to_nid : Option (List Nid)
  created_at : Option Nat
deriving DecidableEq

/-- The edge records of `createNode`'s step 1/step 2 (`from_edges`,
`to_edges`, their own-bucket record, and the per-neighbor appends).  `genEid`
is the oracle for `generateEid`, indexed in generation order: `from_edges`
first, then `to_edges`. -/
def createEdgeRecords (s : Substrate) (node_nid : Nid)
    (from_nid to_nid : List Nid) (createdAt : Nat) (genEid : Nat → Eid) :
    Except StoreError (List YekLav) :=
  if from_nid.length > 0 ∨ to_nid.length > 0 then do
    let from_edges : List TEdgeJson := from_nid.mapIdx
      (fun i f => ⟨genEid i, f, node_nid, createdAt, createdAt, false⟩)
    let to_edges : List TEdgeJson := to_nid.mapIdx
      (fun i t => ⟨genEid (from_nid.length + i), node_nid, t, createdAt, createdAt, false⟩)
    let ownBucket : YekLav :=
      ⟨.nidToEdge node_nid, .nidToEdge (from_edges ++ to_edges)⟩
    let fromAppends ← from_edges.mapM
      (fun edge => YekLavStore.prepareAppend s (.nidToEdge edge.from_nid) (.nidToEdge [edge]))
    let toAppends ← to_edges.mapM
      (fun edge => YekLavStore.prepareAppend s (.nidToEdge edge.to_nid) (.nidToEdge [edge]))
    .ok (ownBucket :: (fromAppends ++ toAppends))
  else
    .ok []

/-- The origin-index append of `createNode`, prepared only when an origin was
supplied. -/
def originIndexRecords (s : Substrate) (origin : Option OriginId) (nid : Nid) :
    Except StoreError (List YekLav) :=
  match origin with
  | none => .ok []
  | some origin => do
    let r ← YekLavStore.prepareAppend s (.originToNid origin)
      (.originToNid [nid])
    .ok [r]

/-- The pipeline-index append of `createNode`, prepared only when the node
was created via an automated ingestion pipeline. -/
def pipeIndexRecords (s : Substrate) (created_via : Option NodeCreatedVia)
    (nid : Nid) : Except StoreError (List YekLav) :=
  match created_via with
  | some (.autoIngestion epid) => do
    let r ← YekLavStore.prepareAppend s (.extPipelineToNid epid)
      (.extPipelineToNid [nid])
    .ok [r]
  | _ => .ok []

/-- The `records` batch assembled by `createNode`, in push order: the
global-listing append, the canonical node record, then (conditionally) the
origin-index append, the pipeline-index append and the edge records. -/
def createNodeRecords (s : Substrate) (args : NodeCreateArgs)
    (node : TNodeJson) (genEid : Nat → Eid) : Except StoreError (List YekLav) := do
  let r₀ ← YekLavStore.prepareAppend s .allNids
    (.allNids [⟨node.nid, node.created_at⟩])
  let nodeRecord : YekLav :=
    ⟨.nidToNode node.nid, .nidToNode node args.origin args.created_via⟩
  let originRecords ← originIndexRecords s args.origin node.nid
  let pipeRecords ← pipeIndexRecords s args.created_via node.nid
  let edgeRecords ← createEdgeRecords s node.nid (args.from_nid.getD [])
    (args.to_nid.getD []) node.created_at genEid
  .ok ([r₀, nodeRecord] ++ originRecords ++ pipeRecords ++ edgeRecords)

/-- `createNode`: builds the canonical node record and submits the whole
batch in a single `set` call, returning the new id.  `genNid` is the oracle
for `generateNid` and `now` for `unixtime.now()`. -/
def createNode (s : Substrate) (args : NodeCreateArgs) (genNid : Nid)
    (genEid : Nat → Eid) (now : Nat) : Except StoreError (Substrate × Nid) := do
  let createdAt := args.created_at.getD now
  let node : TNodeJson :=
    { nid := genNid
      ntype := args.ntype.getD NodeType.Text
      text := args.text
      extattrs := args.extattrs
      index_text := args.index_text
      created_at := createdAt
      updated_at := createdAt }
  let records ← createNodeRecords s args node genEid
  let s₂ ← YekLavStore.set s records
  .ok (s₂, node.nid)

/-- `getNode`: not-found error when the id has no canonical record. -/
def getNode (s : Substrate) (nid : Nid) : Except StoreError TNode :=
  match YekLavStore.get s (.nidToNode nid) with
  | none => .error (.nodeNotFound nid)
  | some (.nidToNode value _ _) => .ok (NodeUtil.fromJson value)
  | some _ => .error .typeConfusion

/-- `getNodeBatch`: maps the requested ids to keys, batch-reads, and returns
only the nodes that exist.  (The final `filterMap` projection models the
source's unchecked cast of each returned value to `TNodeJson`; values of any
other shape are unrepresentable under a `nid->node` key written by the
engine.) -/
def getNodeBatch (s : Substrate) (nids : List Nid) : List TNode :=
  (YekLavStore.getBatch s (nids.map (fun nid => Yek.nidToNode nid))).filterMap
    (fun yl =>
      match yl.lav with
      | .nidToNode value _ _ => some (NodeUtil.fromJson value)
      | _ => none)

/-- `getAllNids`: reads the global listing, sorts it by creation date latest
first (`tags.sort((a, b) => b.created_at - a.created_at)`, a stable sort),
and projects the ids.  (A non-listing value under the `all-nids` key is
unrepresentable; the source would sort and project arbitrary data.) -/
def getAllNids (s : Substrate) : List Nid :=
  match YekLavStore.get s .allNids with
  | none => []
  | some (.allNids tags) =>
    (tags.mergeSort (fun a b => decide (b.created_at ≤ a.created_at))).map
      (fun t => t.nid)
  | some _ => []

/-! ### Cascading delete -/

/-- The node's adjacency bucket, absent read as empty
(`(await store.get(yek))?.lav.value ?? []`; a non-edge-array value under a
`nid->edge` key is unrepresentable in the typed embedding). -/
def edgesAt (s : Substrate) (nid : Nid) : List TEdgeJson :=
  match YekLavStore.get s (.nidToEdge nid) with
  | some (.nidToEdge edges) => edges
  | _ => []

/-- The origin recorded in a node's auxiliary data
(`(await store.get(...))?.lav.auxiliary?.origin`). -/
def nodeOriginAt (s : Substrate) (nid : Nid) : Option OriginId :=
  match YekLavStore.get s (.nidToNode nid) with
  | some (.nidToNode _ origin _) => origin
  | _ => none

/-- For each removed nid, the proposed updates that strip the bi-directional
edge copies out of every linked neighbor's adjacency bucket. -/
def prepareLinkedRemovals (s : Substrate) : List Nid → Except StoreError (List YekLav)
  | [] => .ok []
  | removedNid :: rest => do
    let edges := edgesAt s removedNid
    let linkedNids := edges.map
      (fun edge => if edge.from_nid = removedNid then edge.to_nid else edge.from_nid)
    let prepared ← linkedNids.mapM
      (fun linkedNid => YekLavStore.prepareRemoval s (.nidToEdge linkedNid) [removedNid])
    let restPrepared ← prepareLinkedRemovals s rest
    .ok (prepared ++ restPrepared)

/-- For each removed nid that declared an origin, the proposed update that
strips it out of that origin's index. -/
def prepareOriginRemovals (s : Substrate) : List Nid → Except StoreError (List YekLav)
  | [] => .ok []
  | nid :: rest => do
    let restPrepared ← prepareOriginRemovals s rest
    match nodeOriginAt s nid with
    | some origin => do
      let r ← YekLavStore.prepareRemoval s (.originToNid origin) [nid]
      .ok (r :: restPrepared)
    | none => .ok restPrepared

/-- `prepareNodeRemoval`: the full removal plan for a set of nids — the
unconditional removals (canonical record, own adjacency bucket, similarity
side record) and the proposed updates (neighbors' buckets, global listing,
origin indexes).  Pipeline-index membership is deliberately not cleaned up
(the known gap). -/
def prepareNodeRemoval (s : Substrate) (nids : List Nid) :
    Except StoreError (List Yek × List YekLav) := do
  let linked ← prepareLinkedRemovals s nids
  let allNidsRemoval ← YekLavStore.prepareRemoval s .allNids nids
  let originRemovals ← prepareOriginRemovals s nids
  let toRemove := nids.map Yek.nidToNode ++ nids.map Yek.nidToEdge
    ++ nids.map Yek.nidToNodeSimilaritySearchInfo
  .ok (toRemove, linked ++ [allNidsRemoval] ++ originRemovals)

/-- `deleteNode`: apply the unconditional removals in one `remove` call, then
the proposed updates in one `set` call. -/
def deleteNode (s : Substrate) (nid : Nid) : Except StoreError Substrate := do
  let (toRemove, toSet) ← prepareNodeRemoval s [nid]
  let s₂ := YekLavStore.remove s toRemove
  YekLavStore.set s₂ toSet

/-! ### Node iterator -/

/-- The snapshot cursor (`class Iterator`). -/
structure Iterator where
  nids : List Nid
  index : Nat
deriving DecidableEq

/-- `Iterator.create`: snapshots the full ordered id listing. -/
def Iterator.create (s : Substrate) : Iterator :=
  ⟨getAllNids s, 0⟩

/-- `Iterator.next`: end-of-sequence marker once exhausted, otherwise fetch
the canonical record at the current position from the live store and advance;
a missing record throws without advancing. -/
def Iterator.next (s : Substrate) (it : Iterator) :
    Except StoreError (Option TNode × Iterator) :=
  if h : it.index < it.nids.length then
    match YekLavStore.get s (.nidToNode (it.nids.get ⟨it.index, h⟩)) with
    | none => .error (.iteratorNodeNotFound (it.nids.get ⟨it.index, h⟩))
    | some (.nidToNode value _ _) =>
      .ok (some (NodeUtil.fromJson value), ⟨it.nids, it.index + 1⟩)
    | some _ => .error .typeConfusion
  else
    .ok (none, it)

/-- `Iterator.abort`: truncates the remaining sequence to empty. -/
def Iterator.abort (_it : Iterator) : Iterator :=
  ⟨[], 0⟩

/-! ### Association manager -/

/-- An origin's association bucket with absent read as empty (the `orEmpty`
helper of `recordAssociation` and step 1 of `getAssociations`). -/
def assocBucketAt (s : Substrate) (origin : OriginId) :
    List OriginToExtAssociationValue :=
  match YekLavStore.get s (.originToExtAssociation origin) with
  | some (.originToExtAssociation v) => v
  | _ => []

/-- `recordAssociation`: duplicate call is a harmless success without
writing; a reverse-only entry is an irrecoverable inconsistency; otherwise a
`to`-tagged entry is pushed to `from`'s bucket and a `from`-tagged entry to
`to`'s bucket in one batched `set`. -/
def recordAssociation (s : Substrate) (fromOrigin toOrigin : OriginId)
    (association : UserExternalAssociationType) : Except StoreError Substrate :=
  let lavValue := assocBucketAt s fromOrigin
  let rlavValue := assocBucketAt s toOrigin
  if !(lavValue.all (fun assoc => assoc.other.id != toOrigin.id)) then
    .ok s
  else if !(rlavValue.all (fun assoc => assoc.other.id != fromOrigin.id)) then
    .error (.assocInconsistent fromOrigin.id toOrigin.id)
  else
    YekLavStore.set s
      [⟨.originToExtAssociation fromOrigin,
        .originToExtAssociation (lavValue ++ [⟨.toSide, toOrigin, association⟩])⟩,
       ⟨.originToExtAssociation toOrigin,
        .originToExtAssociation (rlavValue ++ [⟨.fromSide, fromOrigin, association⟩])⟩]

/-- One end of a reported association (`ExternalAssociationEnd`). -/
structure ExternalAssociationEnd where
  origin_hash : OriginHash
  nids : List Nid
deriving DecidableEq

/-- One reported association (the `from`/`to` fields are renamed `fromEnd`
and `toEnd` because `from` is a Lean keyword). -/
structure ExternalAssociation where
  fromEnd : ExternalAssociationEnd
  toEnd : ExternalAssociationEnd
  association : UserExternalAssociationType
deriving DecidableEq

/-- `GetUserExternalAssociationsResponse` (fields `from`/`to` renamed as
above). -/
structure GetUserExternalAssociationsResponse where
  fromList : List ExternalAssociation
  toList : List ExternalAssociation
deriving DecidableEq

/-- `getAssociations`: reads the origin's bucket, batch-resolves the node-id
index of every referenced origin plus the queried one, and partitions the
entries by direction into the `from` and `to` result lists. -/
def getAssociations (s : Substrate) (origin : OriginId) :
    GetUserExternalAssociationsResponse :=
  let value := assocBucketAt s origin
  if value.length = 0 then
    ⟨[], []⟩
  else
    let yeks : List Yek :=
      value.map (fun v => Yek.originToNid v.other) ++ [Yek.originToNid origin]
    let yeklavs := YekLavStore.getBatch s yeks
    let originToNids : List (OriginHash × List Nid) := yeklavs.filterMap
      (fun yl =>
        match yl.yek, yl.lav with
        | .originToNid key, .originToNid v => some (key.id, v)
        | _, _ => none)
    let makeAssociationEnd : OriginHash → ExternalAssociationEnd := fun origin_hash =>
      ⟨origin_hash,
        ((originToNids.find? (fun p => p.1 == origin_hash)).map (fun p => p.2)).getD []⟩
    { fromList := value.filterMap (fun association =>
        match association.direction with
        | .fromSide => some ⟨makeAssociationEnd association.other.id,
            makeAssociationEnd origin.id, association.association⟩
        | .toSide => none)
      toList := value.filterMap (fun association =>
        match association.direction with
        | .toSide => some ⟨makeAssociationEnd origin.id,
            makeAssociationEnd association.other.id, association.association⟩
        | .fromSide => none) }

/-! ### Ingestion progress -/

/-- `UserExternalPipelineIngestionProgress`. -/
structure UserExternalPipelineIngestionProgress where
  epid : UserExternalPipelineId
  ingested_until : Nat
deriving DecidableEq

/-- `getUserIngestionProgress`: an unseen pipeline reads as a zero
watermark. -/
def getUserIngestionProgress (s : Substrate) (epid : UserExternalPipelineId) :
    UserExternalPipelineIngestionProgress :=
  match YekLavStore.get s (.extPipeline epid) with
  | some (.extPipeline ingested_until) => ⟨epid, ingested_until⟩
  | _ => ⟨epid, 0⟩

/-- `advanceUserIngestionProgress`: reads the current progress, overwrites
its watermark with the caller-supplied value unconditionally, and stores it
in one single-record `set`. -/
def advanceUserIngestionProgress (s : Substrate) (epid : UserExternalPipelineId)
    (new_ingested_until : Nat) : Except StoreError Substrate :=
  let progress := getUserIngestionProgress s epid
  let progress := { progress with ingested_until := new_ingested_until }
  YekLavStore.set s [⟨.extPipeline epid, .extPipeline progress.ingested_until⟩]

/-- The substrate keys of a batch, in order. -/
def keysOf (items : List YekLav) : List String :=
  items.map (fun it => stringify it.yek)

/-- The record object built from a batch, in order. -/
def recordsOf (items : List YekLav) : List (String × Lav) :=
  items.map (fun it => (stringify it.yek, it.lav))


/-- The global listing as stored: the `NodeTag` array under the `all-nids`
key, absent read as empty. -/
def allNidsTags (s : Substrate) : List NodeTag :=
  match YekLavStore.get s .allNids with
  | some (.allNids tags) => tags
  | _ => []

/-- One `node.create` invocation with its oracle inputs (fresh nid, fresh
edge ids, wall clock). -/
structure CreateCall where
  args : NodeCreateArgs
  genNid : Nid
  genEid : Nat → Eid
  now : Nat

/-- A sequence of `node.create` invocations, returning the final substrate
and the ids handed back to the caller, in call order. -/
def createSeq : Substrate → List CreateCall → Except StoreError (Substrate × List Nid)
  | s, [] => .ok (s, [])
  | s, c :: rest => do
    let r ← createNode s c.args c.genNid c.genEid c.now
    let r₂ ← createSeq r.1 rest
    .ok (r₂.1, r.2 :: r₂.2)

/-- The `from_edges` list built by `createNode` (closed form over the oracle
inputs). -/
def createFromEdges (args : NodeCreateArgs) (genNid : Nid) (genEid : Nat → Eid)
    (now : Nat) : List TEdgeJson :=
  (args.from_nid.getD []).mapIdx
    (fun i f => ⟨genEid i, f, genNid, args.created_at.getD now,
      args.created_at.getD now, false⟩)

/-- The `to_edges` list built by `createNode` (closed form over the oracle
inputs; edge ids continue after the `from_edges` ids). -/
def createToEdges (args : NodeCreateArgs) (genNid : Nid) (genEid : Nat → Eid)
    (now : Nat) : List TEdgeJson :=
  (args.to_nid.getD []).mapIdx
    (fun i t => ⟨genEid ((args.from_nid.getD []).length + i), genNid, t,
      args.created_at.getD now, args.created_at.getD now, false⟩)

/-- The closed form of the batch `createNode` submits to `set` when no origin
and no creation pipeline are supplied and at least one neighbor id is
declared; proven equal to the code's construction in
`createNode_with_edges`. -/
def createNodeBatch (s : Substrate) (args : NodeCreateArgs) (genNid : Nid)
    (genEid : Nat → Eid) (now : Nat) : List YekLav :=
  [⟨.allNids, .allNids (allNidsTags s ++ [⟨genNid, args.created_at.getD now⟩])⟩,
   ⟨.nidToNode genNid,
    .nidToNode
      { nid := genNid, ntype := args.ntype.getD NodeType.Text,
        text := args.text, extattrs := args.extattrs,
        index_text := args.index_text,
        created_at := args.created_at.getD now,
        updated_at := args.created_at.getD now }
      args.origin args.created_via⟩] ++
  ([⟨.nidToEdge genNid,
     .nidToEdge (createFromEdges args genNid genEid now ++
       createToEdges args genNid genEid now)⟩] ++
   ((createFromEdges args genNid genEid now).map
      (fun e => ⟨.nidToEdge e.from_nid, .nidToEdge (edgesAt s e.from_nid ++ [e])⟩) ++
    (createToEdges args genNid genEid now).map
      (fun e => ⟨.nidToEdge e.to_nid, .nidToEdge (edgesAt s e.to_nid ++ [e])⟩)))

/-! ## Theorems -/

/-! ### Injectivity of the key codec (spec §4.1: two keys of different kind
never collide, equal keys of equal kind agree) -/

theorem append_data_at (p a : String) (i : Nat) (h : i < p.data.length) :
    (p ++ a).data[i]? = p.data[i]? := by
  rw [String.data_append]
  exact List.getElem?_append_left h

theorem append_ne (p₁ p₂ a b : String) (i : Nat) (h₁ : i < p₁.data.length)
    (h₂ : i < p₂.data.length) (hne : p₁.data[i]? ≠ p₂.data[i]?) :
    p₁ ++ a ≠ p₂ ++ b := by
  intro h
  exact hne (by rw [← append_data_at p₁ a i h₁, h, append_data_at p₂ b i h₂])

theorem append_cancel (p a b : String) (h : p ++ a = p ++ b) : a = b := by
  apply String.ext
  have h₂ := congrArg String.data h
  simp only [String.data_append] at h₂
  exact List.append_cancel_left h₂

theorem stringify_inj : ∀ {y₁ y₂ : Yek}, stringify y₁ = stringify y₂ → y₁ = y₂ := by
  intro y₁ y₂ h
  cases y₁ <;> cases y₂ <;> simp only [stringify] at h <;>
    first
    | rfl
    | (exact absurd h (by decide))
    | (congr 1
       exact append_cancel _ _ _ h)
    | (congr 1
       apply OriginId.ext
       exact append_cancel _ _ _ h)
    | (congr 1
       apply UserExternalPipelineId.ext
       exact append_cancel _ _ _ h)
    | (exact absurd h (append_ne _ _ _ _ 0 (by decide) (by decide) (by decide)))
    | (exact absurd h (append_ne _ _ _ _ 5 (by decide) (by decide) (by decide)))
    | (exact absurd h (append_ne _ _ _ _ 8 (by decide) (by decide) (by decide)))
    | (rw [← String.append_empty ("all-nids")] at h
       exact absurd h (append_ne _ _ _ _ 0 (by decide) (by decide) (by decide)))
    | (rw [← String.append_empty ("account-info")] at h
       exact absurd h (append_ne _ _ _ _ 0 (by decide) (by decide) (by decide)))

@[simp]
theorem stringify_eq_iff {y₁ y₂ : Yek} : stringify y₁ = stringify y₂ ↔ y₁ = y₂ :=
  ⟨stringify_inj, fun h => h ▸ rfl⟩

@[simp]
theorem stringify_beq {y₁ y₂ : Yek} : (stringify y₁ == stringify y₂) = (y₁ == y₂) := by
  by_cases h : y₁ = y₂
  · subst h
    simp
  · have h₂ : stringify y₁ ≠ stringify y₂ := fun he => h (stringify_inj he)
    simp [h, h₂]

@[simp]
theorem getRec_empty (k : String) : Substrate.empty.getRec k = none := rfl

@[simp]
theorem getRec_put_self (s : Substrate) (k : String) (v : Lav) :
    (s.put k v).getRec k = some v := by
  simp [Substrate.put, Substrate.getRec, List.find?]

@[simp]
theorem getRec_put_ne (s : Substrate) (k k' : String) (v : Lav) (h : k' ≠ k) :
    (s.put k v).getRec k' = s.getRec k' := by
  have hb : (k == k') = false := by simp [BEq.comm]; exact fun he => h he.symm
  simp only [Substrate.put, Substrate.getRec, List.find?, hb]
  induction s with
  | nil => rfl
  | cons p rest ih =>
    by_cases hp : p.1 = k
    · have : (p.1 != k) = false := by simp [hp]
      simp only [List.filter, this]
      have : (p.1 == k') = false := by
        simp only [beq_eq_false_iff_ne]
        rw [hp]
        exact fun he => h he.symm
      simp only [List.find?, this]
      simpa [List.find?, this] using ih
    · have : (p.1 != k) = true := by simp [hp]
      simp only [List.filter, this]
      by_cases hk : p.1 = k'
      · simp [List.find?, hk]
      · have h₁ : (p.1 == k') = false := by simp [hk]
        simp only [List.find?, h₁]
        simpa [List.find?, h₁] using ih

@[simp]
theorem getRec_removeKeys (s : Substrate) (ks : List String) (k : String) :
    (s.removeKeys ks).getRec k = if k ∈ ks then none else s.getRec k := by
  induction s with
  | nil => simp [Substrate.removeKeys, Substrate.getRec]
  | cons p rest ih =>
    by_cases hm : p.1 ∈ ks
    · have : (ks.contains p.1) = true := by simpa using hm
      simp only [Substrate.removeKeys, List.filter, this, Bool.not_true]
      by_cases hk : k ∈ ks
      · simpa [Substrate.removeKeys, hk] using ih
      · have hne : (p.1 == k) = false := by
          simp only [beq_eq_false_iff_ne]
          intro he
          exact hk (he ▸ hm)
        simp only [Substrate.getRec, List.find?, hne]
        simpa [Substrate.removeKeys, Substrate.getRec, hk] using ih
    · have : (ks.contains p.1) = false := by simpa using hm
      simp only [Substrate.removeKeys, List.filter, this, Bool.not_false]
      by_cases hk : p.1 = k
      · have hin : k ∉ ks := hk ▸ hm
        simp [Substrate.getRec, List.find?, hk, hin]
      · have hne : (p.1 == k) = false := by simp [hk]
        simp only [Substrate.getRec, List.find?, hne]
        simpa [Substrate.removeKeys, Substrate.getRec] using ih

theorem getRec_mem (s : Substrate) (k : String) (v : Lav)
    (h : s.getRec k = some v) : (k, v) ∈ s := by
  simp only [Substrate.getRec, Option.map_eq_some'] at h
  obtain ⟨p, hfind, hv⟩ := h
  have hmem := List.mem_of_find?_eq_some hfind
  have hkey := List.find?_some hfind
  simp only [beq_iff_eq] at hkey
  have : p = (k, v) := by
    cases p
    simp only at hkey hv
    rw [hkey, hv]
  exact this ▸ hmem

/-! ### General lemmas about the Record Store -/

theorem except_bind_ok {ε α β : Type} (x : Except ε α) (f : α → Except ε β) (b : β) :
    (x >>= f) = .ok b ↔ ∃ a, x = .ok a ∧ f a = .ok b := by
  cases x with
  | error e =>
    constructor
    · intro h
      exact absurd h (by simp [Bind.bind, Except.bind])
    · rintro ⟨a, ha, _⟩
      cases ha
  | ok a =>
    constructor
    · intro h
      exact ⟨a, rfl, h⟩
    · rintro ⟨a', ha, hf⟩
      cases ha
      exact hf

theorem buildRecords_ok (items : List YekLav) (acc : List (String × Lav))
    (h : (acc.map (fun p => p.1) ++ keysOf items).Nodup) :
    YekLavStore.buildRecords items acc = .ok (acc ++ recordsOf items) := by
  induction items generalizing acc with
  | nil => simp [YekLavStore.buildRecords, recordsOf]
  | cons it rest ih =>
    have hnotin : stringify it.yek ∉ acc.map (fun p => p.1) := by
      have := List.disjoint_of_nodup_append h
      intro hmem
      exact this hmem (by simp [keysOf])
    have hcontains : ((acc.map (fun p => p.1)).contains (stringify it.yek)) = false := by
      simpa using hnotin
    have hrec : ((acc ++ [(stringify it.yek, it.lav)]).map (fun p => p.1)
        ++ keysOf rest).Nodup := by
      have : (acc ++ [(stringify it.yek, it.lav)]).map (fun p => p.1)
          ++ keysOf rest = acc.map (fun p => p.1) ++ keysOf (it :: rest) := by
        simp [keysOf]
      rw [this]
      exact h
    have := ih (acc ++ [(stringify it.yek, it.lav)]) hrec
    simp only [YekLavStore.buildRecords, hcontains, Bool.false_eq_true, if_false]
    rw [this]
    simp [recordsOf]

theorem buildRecords_dup (items : List YekLav) (acc : List (String × Lav))
    (hacc : (acc.map (fun p => p.1)).Nodup)
    (h : ¬ (acc.map (fun p => p.1) ++ keysOf items).Nodup) :
    ∃ k, YekLavStore.buildRecords items acc = .error (.duplicateKey k) := by
  induction items generalizing acc with
  | nil =>
    exact absurd (by simpa [keysOf] using hacc) h
  | cons it rest ih =>
    by_cases hmem : stringify it.yek ∈ acc.map (fun p => p.1)
    · refine ⟨stringify it.yek, ?_⟩
      have hcontains : ((acc.map (fun p => p.1)).contains (stringify it.yek)) = true := by
        simpa using hmem
      simp only [YekLavStore.buildRecords, hcontains]
      rfl
    · have hcontains : ((acc.map (fun p => p.1)).contains (stringify it.yek)) = false := by
        simpa using hmem
      have hacc' : ((acc ++ [(stringify it.yek, it.lav)]).map (fun p => p.1)).Nodup := by
        simp only [List.map_append]
        rw [List.nodup_append]
        refine ⟨hacc, by simp, ?_⟩
        intro a ha hb
        simp only [List.map_cons, List.map_nil, List.mem_singleton] at hb
        exact hmem (hb ▸ ha)
      have heq : (acc ++ [(stringify it.yek, it.lav)]).map (fun p => p.1)
          ++ keysOf rest = acc.map (fun p => p.1) ++ keysOf (it :: rest) := by
        simp [keysOf]
      have h' : ¬ ((acc ++ [(stringify it.yek, it.lav)]).map (fun p => p.1)
          ++ keysOf rest).Nodup := by
        rw [heq]
        exact h
      obtain ⟨k, hk⟩ := ih (acc ++ [(stringify it.yek, it.lav)]) hacc' h'
      refine ⟨k, ?_⟩
      simp only [YekLavStore.buildRecords, hcontains, Bool.false_eq_true, if_false]
      exact hk

theorem set_ok (s : Substrate) (items : List YekLav)
    (hkinds : ∀ it ∈ items, it.yek.kind = it.lav.kind)
    (hkeys : (keysOf items).Nodup) :
    YekLavStore.set s items = .ok (bulkWrite s (recordsOf items)) := by
  have hfind : items.find? (fun item => item.yek.kind != item.lav.kind) = none := by
    rw [List.find?_eq_none]
    intro it hit
    simpa using hkinds it hit
  have hbuild := buildRecords_ok items [] (by simpa using hkeys)
  simp only [YekLavStore.set, hfind, hbuild, List.nil_append]

theorem set_mismatch (s : Substrate) (items : List YekLav)
    (h : ∃ it ∈ items, it.yek.kind ≠ it.lav.kind) :
    ∃ yk lk, YekLavStore.set s items = .error (.mismatchedKinds yk lk) := by
  have : (items.find? (fun item => item.yek.kind != item.lav.kind)).isSome := by
    rw [List.find?_isSome]
    obtain ⟨it, hit, hne⟩ := h
    exact ⟨it, hit, by simpa using hne⟩
  obtain ⟨it, hit⟩ := Option.isSome_iff_exists.mp this
  exact ⟨it.yek.kind, it.lav.kind, by simp [YekLavStore.set, hit]⟩

theorem set_dup (s : Substrate) (items : List YekLav)
    (hkinds : ∀ it ∈ items, it.yek.kind = it.lav.kind)
    (hkeys : ¬ (keysOf items).Nodup) :
    ∃ k, YekLavStore.set s items = .error (.duplicateKey k) := by
  have hfind : items.find? (fun item => item.yek.kind != item.lav.kind) = none := by
    rw [List.find?_eq_none]
    intro it hit
    simpa using hkinds it hit
  obtain ⟨k, hk⟩ := buildRecords_dup items [] (by simp) (by simpa using hkeys)
  refine ⟨k, ?_⟩
  simp [YekLavStore.set, hfind, hk]

theorem getRec_bulkWrite (s : Substrate) (records : List (String × Lav))
    (k : String) (h : (records.map (fun p => p.1)).Nodup) :
    (bulkWrite s records).getRec k =
      match records.find? (fun p => p.1 == k) with
      | some p => some p.2
      | none => s.getRec k := by
  induction records generalizing s with
  | nil => rfl
  | cons kv rest ih =>
    simp only [List.map_cons, List.nodup_cons] at h
    obtain ⟨hnotin, hrest⟩ := h
    by_cases hk : kv.1 = k
    · have hfind : rest.find? (fun p => p.1 == k) = none := by
        rw [List.find?_eq_none]
        intro p hp hbeq
        simp only [beq_iff_eq] at hbeq
        exact hnotin (by
          rw [← hk] at hbeq
          exact hbeq ▸ List.mem_map_of_mem (fun p => p.1) hp)
      have := ih (s.put kv.1 kv.2) hrest
      simp only [bulkWrite, List.foldl_cons] at *
      rw [this, hfind, List.find?]
      simp [hk]
    · have := ih (s.put kv.1 kv.2) hrest
      simp only [bulkWrite, List.foldl_cons] at *
      rw [this, List.find?]
      have hbeq : (kv.1 == k) = false := by simp [hk]
      rw [hbeq]
      cases hfind : rest.find? (fun p => p.1 == k) with
      | some p => simp
      | none => simp [getRec_put_ne s kv.1 k kv.2 (fun he => hk he.symm)]

theorem find_recordsOf (items : List YekLav) (yek : Yek) :
    (recordsOf items).find? (fun p => p.1 == stringify yek) =
      (items.find? (fun it => it.yek == yek)).map
        (fun it => (stringify it.yek, it.lav)) := by
  induction items with
  | nil => rfl
  | cons it rest ih =>
    simp only [recordsOf, List.map_cons, List.find?]
    have hb : (stringify it.yek == stringify yek) = (it.yek == yek) := stringify_beq
    rw [hb]
    cases hby : (it.yek == yek) with
    | true => simp
    | false => simpa [recordsOf] using ih

/-- `YekLavStore.get` after a successful `set` of a batch with distinct keys:
the batch's own value for the key if present, the old value otherwise. -/
theorem get_set (s s₂ : Substrate) (items : List YekLav) (yek : Yek)
    (hok : YekLavStore.set s items = .ok s₂)
    (hkinds : ∀ it ∈ items, it.yek.kind = it.lav.kind)
    (hkeys : (keysOf items).Nodup) :
    YekLavStore.get s₂ yek =
      match items.find? (fun it => it.yek == yek) with
      | some it => some it.lav
      | none => YekLavStore.get s yek := by
  have h₂ := set_ok s items hkinds hkeys
  rw [hok] at h₂
  injection h₂ with hs₂
  subst hs₂
  have hnodup : ((recordsOf items).map (fun p => p.1)).Nodup := by
    simpa [recordsOf, keysOf, Function.comp] using hkeys
  rw [YekLavStore.get, getRec_bulkWrite _ _ _ hnodup, find_recordsOf]
  cases items.find? (fun it => it.yek == yek) with
  | some it => simp
  | none => simp [YekLavStore.get]

/-! ### Lemmas about the batch overload of `get` -/

open YekLavStore

theorem replace_self (acc : List (String × Yek)) (y : Yek)
    (hacc : ∀ p ∈ acc, p.1 = stringify p.2) :
    acc.map (fun p => if p.1 == stringify y then (stringify y, y) else p) = acc := by
  induction acc with
  | nil => rfl
  | cons p rest ih =>
    have hp := hacc p (by simp)
    have hrest : ∀ q ∈ rest, q.1 = stringify q.2 := fun q hq => hacc q (by simp [hq])
    simp only [List.map_cons, ih hrest, List.cons.injEq, and_true]
    by_cases hk : p.1 = stringify y
    · have hyp : p.2 = y := stringify_inj (by rw [← hp, hk])
      have : (p.1 == stringify y) = true := by simpa using hk
      rw [this]
      simp only [if_true]
      rw [← hk, ← hyp]
    · have : (p.1 == stringify y) = false := by simpa using hk
      rw [this]
      simp

theorem keyToYekAux_inv (out : List Yek) (yeks : List Yek)
    (acc : List (String × Yek))
    (hacc : ∀ p ∈ acc, p.1 = stringify p.2 ∧ p.2 ∈ out)
    (hyeks : ∀ y ∈ yeks, y ∈ out) :
    ∀ p ∈ keyToYekAux acc yeks, p.1 = stringify p.2 ∧ p.2 ∈ out := by
  induction yeks generalizing acc with
  | nil => simpa [keyToYekAux] using hacc
  | cons y rest ih =>
    simp only [keyToYekAux]
    by_cases hany : (acc.any (fun p => p.1 == stringify y)) = true
    · rw [if_pos hany]
      have heq := replace_self acc y (fun p hp => (hacc p hp).1)
      rw [heq]
      exact ih acc hacc (fun z hz => hyeks z (by simp [hz]))
    · rw [if_neg hany]
      refine ih (acc ++ [(stringify y, y)]) ?_ (fun z hz => hyeks z (by simp [hz]))
      intro p hp
      rcases List.mem_append.mp hp with hl | hr
      · exact hacc p hl
      · simp only [List.mem_singleton] at hr
        subst hr
        exact ⟨rfl, hyeks y (by simp)⟩

theorem keyToYekAux_mono (yeks : List Yek) (acc : List (String × Yek))
    (hacc : ∀ p ∈ acc, p.1 = stringify p.2) (p : String × Yek) (hp : p ∈ acc) :
    p ∈ keyToYekAux acc yeks := by
  induction yeks generalizing acc with
  | nil => simpa [keyToYekAux] using hp
  | cons y rest ih =>
    simp only [keyToYekAux]
    by_cases hany : (acc.any (fun q => q.1 == stringify y)) = true
    · rw [if_pos hany, replace_self acc y hacc]
      exact ih acc hacc hp
    · rw [if_neg hany]
      refine ih (acc ++ [(stringify y, y)]) ?_ (by simp [hp])
      intro q hq
      rcases List.mem_append.mp hq with hl | hr
      · exact hacc q hl
      · simp only [List.mem_singleton] at hr
        subst hr
        rfl

theorem keyToYekAux_mem (yeks : List Yek) (acc : List (String × Yek))
    (hacc : ∀ p ∈ acc, p.1 = stringify p.2) (y : Yek) (hy : y ∈ yeks) :
    (stringify y, y) ∈ keyToYekAux acc yeks := by
  induction yeks generalizing acc with
  | nil => cases hy
  | cons y₀ rest ih =>
    simp only [keyToYekAux]
    rcases List.mem_cons.mp hy with hhead | htail
    · subst hhead
      by_cases hany : (acc.any (fun q => q.1 == stringify y)) = true
      · rw [if_pos hany, replace_self acc y hacc]
        obtain ⟨p, hpmem, hpkey⟩ := List.any_eq_true.mp hany
        simp only [beq_iff_eq] at hpkey
        have hp₂ : p.2 = y := stringify_inj (by rw [← hacc p hpmem, hpkey])
        have : (stringify y, y) = p := by
          cases p
          simp only at hpkey hp₂
          rw [← hpkey, ← hp₂]
        exact keyToYekAux_mono rest acc hacc _ (this ▸ hpmem)
      · rw [if_neg hany]
        refine keyToYekAux_mono rest _ ?_ _ (by simp)
        intro q hq
        rcases List.mem_append.mp hq with hl | hr
        · exact hacc q hl
        · simp only [List.mem_singleton] at hr
          subst hr
          rfl
    · by_cases hany : (acc.any (fun q => q.1 == stringify y₀)) = true
      · rw [if_pos hany, replace_self acc y₀ hacc]
        exact ih acc hacc htail
      · rw [if_neg hany]
        refine ih (acc ++ [(stringify y₀, y₀)]) ?_ htail
        intro q hq
        rcases List.mem_append.mp hq with hl | hr
        · exact hacc q hl
        · simp only [List.mem_singleton] at hr
          subst hr
          rfl

/-- Everything the batch `get` returns is a stored record of a requested
key. -/
theorem getBatch_sound (s : Substrate) (yeks : List Yek) (yl : YekLav)
    (h : yl ∈ YekLavStore.getBatch s yeks) :
    yl.yek ∈ yeks ∧ YekLavStore.get s yl.yek = some yl.lav := by
  simp only [YekLavStore.getBatch, List.mem_filterMap] at h
  obtain ⟨p, hpmem, hpeq⟩ := h
  have hinv := keyToYekAux_inv yeks yeks [] (by simp) (fun y hy => hy) p hpmem
  simp only [Option.map_eq_some'] at hpeq
  obtain ⟨lav, hlav, hyl⟩ := hpeq
  subst hyl
  exact ⟨hinv.2, by rw [YekLavStore.get, ← hinv.1]; exact hlav⟩

/-- Every requested key whose record exists contributes its record to the
batch `get` result. -/
theorem getBatch_complete (s : Substrate) (yeks : List Yek) (y : Yek)
    (lav : Lav) (hy : y ∈ yeks) (hget : YekLavStore.get s y = some lav) :
    YekLav.mk y lav ∈ YekLavStore.getBatch s yeks := by
  have hmem := keyToYekAux_mem yeks [] (by simp) y hy
  simp only [YekLavStore.getBatch, List.mem_filterMap]
  exact ⟨(stringify y, y), hmem, by
    rw [show Substrate.getRec s (stringify y) = YekLavStore.get s y from rfl, hget]
    rfl⟩

/-! ### Lemmas about `prepareAppend`, `set` inversion and `createNode` -/

theorem appendValue_kind (l₁ l₂ nl : Lav)
    (h : YekLavStore.Lav.appendValue l₁ l₂ = some nl) : nl.kind = l₂.kind := by
  cases l₁ <;> cases l₂ <;> simp only [YekLavStore.Lav.appendValue] at h <;>
    cases h <;> rfl

theorem prepareAppend_ok_inv (s : Substrate) (yek : Yek) (appended : Lav)
    (r : YekLav) (h : YekLavStore.prepareAppend s yek appended = .ok r) :
    r.yek = yek ∧ r.lav.kind = yek.kind := by
  rw [YekLavStore.prepareAppend] at h
  split at h
  · cases h
  · rename_i hk
    have hkeq : yek.kind = appended.kind := by simpa using hk
    split at h
    · cases h
      exact ⟨rfl, hkeq.symm⟩
    · rename_i lav hget
      split at h
      · split at h
        · rename_i newLav happ
          cases h
          exact ⟨rfl, (appendValue_kind lav appended newLav happ).trans hkeq.symm⟩
        · cases h
      · cases h

theorem prepareAppend_allNids_inv (s : Substrate) (new : List NodeTag)
    (r : YekLav)
    (h : YekLavStore.prepareAppend s .allNids (.allNids new) = .ok r) :
    r = ⟨.allNids, .allNids (allNidsTags s ++ new)⟩ := by
  rw [YekLavStore.prepareAppend] at h
  rw [show ((Yek.allNids).kind != (Lav.allNids new).kind) = false from rfl] at h
  simp only [Bool.false_eq_true, if_false] at h
  rw [allNidsTags]
  cases hget : YekLavStore.get s .allNids with
  | none =>
    rw [hget] at h
    cases h
    simp
  | some lav =>
    rw [hget] at h
    cases lav with
    | allNids v =>
      simp only [isOfArrayKind, if_true, YekLavStore.Lav.appendValue,
        Option.some.injEq] at h
      cases h
      rfl
    | nidToNode v o c => simp [isOfArrayKind] at h
    | originToNid v => simp [isOfArrayKind, YekLavStore.Lav.appendValue] at h
    | nidToEdge v => simp [isOfArrayKind, YekLavStore.Lav.appendValue] at h
    | originToActivity v => simp [isOfArrayKind] at h
    | extPipeline v => simp [isOfArrayKind] at h
    | extPipelineToNid v => simp [isOfArrayKind, YekLavStore.Lav.appendValue] at h
    | originToExtAssociation v =>
      simp [isOfArrayKind, YekLavStore.Lav.appendValue] at h
    | nidToNodeSimilaritySearchInfo v => simp [isOfArrayKind] at h
    | userAccountInfo v => simp [isOfArrayKind] at h

theorem prepareAppend_allNids (s : Substrate) (new : List NodeTag)
    (hsh : ∀ lav, YekLavStore.get s .allNids = some lav → ∃ v, lav = .allNids v) :
    YekLavStore.prepareAppend s .allNids (.allNids new) =
      .ok ⟨.allNids, .allNids (allNidsTags s ++ new)⟩ := by
  rw [YekLavStore.prepareAppend]
  rw [show ((Yek.allNids).kind != (Lav.allNids new).kind) = false from rfl]
  simp only [Bool.false_eq_true, if_false]
  rw [allNidsTags]
  cases hget : YekLavStore.get s .allNids with
  | none => simp
  | some lav =>
    obtain ⟨v, hv⟩ := hsh lav hget
    subst hv
    simp [isOfArrayKind, YekLavStore.Lav.appendValue]

theorem prepareAppend_edges (s : Substrate) (n : Nid) (new : List TEdgeJson)
    (hsh : ∀ lav, YekLavStore.get s (.nidToEdge n) = some lav →
      ∃ v, lav = .nidToEdge v) :
    YekLavStore.prepareAppend s (.nidToEdge n) (.nidToEdge new) =
      .ok ⟨.nidToEdge n, .nidToEdge (edgesAt s n ++ new)⟩ := by
  rw [YekLavStore.prepareAppend]
  rw [show ((Yek.nidToEdge n).kind != (Lav.nidToEdge new).kind) = false from rfl]
  simp only [Bool.false_eq_true, if_false]
  rw [edgesAt]
  cases hget : YekLavStore.get s (.nidToEdge n) with
  | none => simp
  | some lav =>
    obtain ⟨v, hv⟩ := hsh lav hget
    subst hv
    simp [isOfArrayKind, YekLavStore.Lav.appendValue]

theorem buildRecords_ok_inv (items : List YekLav) (acc : List (String × Lav))
    (r : List (String × Lav))
    (hacc : (acc.map (fun p => p.1)).Nodup)
    (h : YekLavStore.buildRecords items acc = .ok r) :
    (acc.map (fun p => p.1) ++ keysOf items).Nodup := by
  induction items generalizing acc with
  | nil => simpa [keysOf] using hacc
  | cons it rest ih =>
    rw [YekLavStore.buildRecords] at h
    by_cases hc : ((acc.map (fun p => p.1)).contains (stringify it.yek)) = true
    · rw [if_pos hc] at h
      cases h
    · rw [if_neg hc] at h
      have hnotin : stringify it.yek ∉ acc.map (fun p => p.1) := by
        simpa using hc
      have hacc₂ : ((acc ++ [(stringify it.yek, it.lav)]).map (fun p => p.1)).Nodup := by
        simp only [List.map_append]
        rw [List.nodup_append]
        refine ⟨hacc, by simp, ?_⟩
        intro a ha hb
        simp only [List.map_cons, List.map_nil, List.mem_singleton] at hb
        exact hnotin (hb ▸ ha)
      have := ih (acc ++ [(stringify it.yek, it.lav)]) hacc₂ h
      simpa [keysOf] using this

theorem set_ok_inv (s s₂ : Substrate) (items : List YekLav)
    (h : YekLavStore.set s items = .ok s₂) :
    (∀ it ∈ items, it.yek.kind = it.lav.kind) ∧ (keysOf items).Nodup ∧
    s₂ = bulkWrite s (recordsOf items) := by
  rw [YekLavStore.set] at h
  cases hfind : items.find? (fun item => item.yek.kind != item.lav.kind) with
  | some it =>
    rw [hfind] at h
    cases h
  | none =>
    rw [hfind] at h
    have hkinds : ∀ it ∈ items, it.yek.kind = it.lav.kind := by
      intro it hit
      simpa using List.find?_eq_none.mp hfind it hit
    cases hbuild : YekLavStore.buildRecords items [] with
    | error e =>
      rw [hbuild] at h
      cases h
    | ok r =>
      rw [hbuild] at h
      have hnodup : (keysOf items).Nodup := by
        simpa using buildRecords_ok_inv items [] r (by simp) hbuild
      have hok := buildRecords_ok items [] (by simpa using hnodup)
      rw [hbuild] at hok
      injection hok with hr
      cases h
      exact ⟨hkinds, hnodup, by rw [hr]; simp⟩

theorem mapM_ok_of_all {α β : Type} (xs : List α) (f : α → Except StoreError β)
    (g : α → β) (h : ∀ x ∈ xs, f x = .ok (g x)) : xs.mapM f = .ok (xs.map g) := by
  induction xs with
  | nil => rfl
  | cons x rest ih =>
    rw [List.mapM_cons, h x (List.mem_cons_self x rest),
      ih (fun z hz => h z (List.mem_cons_of_mem x hz))]
    rfl

theorem allNidsTags_eq_of_get (s : Substrate) (tags : List NodeTag)
    (h : YekLavStore.get s .allNids = some (.allNids tags)) :
    allNidsTags s = tags := by
  unfold allNidsTags
  rw [h]

theorem createNode_ok_inv (s : Substrate) (args : NodeCreateArgs) (genNid : Nid)
    (genEid : Nat → Eid) (now : Nat) (s₂ : Substrate) (nid : Nid)
    (h : createNode s args genNid genEid now = .ok (s₂, nid)) :
    nid = genNid ∧
    YekLavStore.get s₂ (.nidToNode genNid) =
      some (.nidToNode
        { nid := genNid, ntype := args.ntype.getD NodeType.Text, text := args.text
          extattrs := args.extattrs, index_text := args.index_text
          created_at := args.created_at.getD now
          updated_at := args.created_at.getD now }
        args.origin args.created_via) ∧
    allNidsTags s₂ = allNidsTags s ++ [⟨genNid, args.created_at.getD now⟩] := by
  simp only [createNode] at h
  rw [except_bind_ok] at h
  obtain ⟨records, hrecords, h⟩ := h
  rw [except_bind_ok] at h
  obtain ⟨s₃, hset, h⟩ := h
  injection h with h
  injection h with hs hn
  subst hs
  subst hn
  simp only [createNodeRecords] at hrecords
  rw [except_bind_ok] at hrecords
  obtain ⟨r₀, hr₀, hrecords⟩ := hrecords
  rw [except_bind_ok] at hrecords
  obtain ⟨originRecords, hor, hrecords⟩ := hrecords
  rw [except_bind_ok] at hrecords
  obtain ⟨pipeRecords, hpr, hrecords⟩ := hrecords
  rw [except_bind_ok] at hrecords
  obtain ⟨edgeRecords, her, hrecords⟩ := hrecords
  injection hrecords with hrec
  subst hrec
  have hr₀eq := prepareAppend_allNids_inv s _ r₀ hr₀
  subst hr₀eq
  obtain ⟨hkinds, hkeys, hbw⟩ := set_ok_inv s s₃ _ hset
  refine ⟨rfl, ?_, ?_⟩
  · have hget := get_set s s₃ _ (.nidToNode genNid) hset hkinds hkeys
    simp only [List.cons_append, List.nil_append, List.find?] at hget
    rw [show ((Yek.allNids) == Yek.nidToNode genNid) = false from rfl] at hget
    rw [show ((Yek.nidToNode genNid) == Yek.nidToNode genNid) = true from by simp] at hget
    exact hget
  · have hget := get_set s s₃ _ .allNids hset hkinds hkeys
    simp only [List.cons_append, List.nil_append, List.find?] at hget
    rw [show ((Yek.allNids) == Yek.allNids) = true from by simp] at hget
    exact allNidsTags_eq_of_get s₃ _ hget

theorem except_bind_ok_left {ε α β : Type} (a : α) (f : α → Except ε β) :
    (Except.ok a >>= f) = f a := rfl

theorem except_bind_error_left {ε α β : Type} (e : ε) (f : α → Except ε β) :
    ((Except.error e : Except ε α) >>= f) = .error e := rfl

theorem mapIdx_map_proj {α β γ : Type} (l : List α) (f : Nat → α → β)
    (g : β → γ) (p : α → γ) (hp : ∀ i a, g (f i a) = p a) :
    (l.mapIdx f).map g = l.map p := by
  rw [List.mapIdx_eq_enum_map, List.map_map]
  have hfun : (g ∘ Function.uncurry f) = (p ∘ Prod.snd) := by
    funext pair
    exact hp pair.1 pair.2
  rw [hfun, ← List.map_map, List.enum_map_snd]

/-- `createNode` with no origin and no creation pipeline but at least one
declared neighbor submits exactly the closed-form batch `createNodeBatch` in
one `set` call. -/
theorem createNode_with_edges (s : Substrate) (args : NodeCreateArgs)
    (genNid : Nid) (genEid : Nat → Eid) (now : Nat)
    (horigin : args.origin = none) (hvia : args.created_via = none)
    (hall : ∀ lav, YekLavStore.get s .allNids = some lav → ∃ v, lav = .allNids v)
    (hedge : ∀ n lav, YekLavStore.get s (.nidToEdge n) = some lav →
      ∃ v, lav = .nidToEdge v)
    (hne : (args.from_nid.getD []).length > 0 ∨ (args.to_nid.getD []).length > 0) :
    createNode s args genNid genEid now =
      (YekLavStore.set s (createNodeBatch s args genNid genEid now) >>=
        fun s₂ => .ok (s₂, genNid)) := by
  have hmapM₁ := mapM_ok_of_all (createFromEdges args genNid genEid now)
    (fun edge => YekLavStore.prepareAppend s (.nidToEdge edge.from_nid)
      (.nidToEdge [edge]))
    (fun edge => YekLav.mk (.nidToEdge edge.from_nid)
      (.nidToEdge (edgesAt s edge.from_nid ++ [edge])))
    (fun edge _ => prepareAppend_edges s edge.from_nid [edge] (hedge edge.from_nid))
  have hmapM₂ := mapM_ok_of_all (createToEdges args genNid genEid now)
    (fun edge => YekLavStore.prepareAppend s (.nidToEdge edge.to_nid)
      (.nidToEdge [edge]))
    (fun edge => YekLav.mk (.nidToEdge edge.to_nid)
      (.nidToEdge (edgesAt s edge.to_nid ++ [edge])))
    (fun edge _ => prepareAppend_edges s edge.to_nid [edge] (hedge edge.to_nid))
  simp only [createNode, createNodeRecords, horigin, hvia, originIndexRecords,
    pipeIndexRecords, createEdgeRecords, if_pos hne,
    prepareAppend_allNids s _ hall, except_bind_ok_left]
  rw [show (args.from_nid.getD []).mapIdx
      (fun i f => TEdgeJson.mk (genEid i) f genNid (args.created_at.getD now)
        (args.created_at.getD now) false) =
      createFromEdges args genNid genEid now from rfl]
  rw [show (args.to_nid.getD []).mapIdx
      (fun i t => TEdgeJson.mk (genEid ((args.from_nid.getD []).length + i))
        genNid t (args.created_at.getD now) (args.created_at.getD now) false) =
      createToEdges args genNid genEid now from rfl]
  rw [hmapM₁, hmapM₂]
  simp only [except_bind_ok_left, createNodeBatch, horigin, hvia, List.append_nil,
    List.cons_append, List.nil_append, List.append_assoc]

/-- `createNode` with no origin, no creation pipeline and no neighbor ids
submits exactly the two-record batch (global-listing append plus canonical
node record) in one `set` call. -/
theorem createNode_no_edges (s : Substrate) (args : NodeCreateArgs)
    (genNid : Nid) (genEid : Nat → Eid) (now : Nat)
    (horigin : args.origin = none) (hvia : args.created_via = none)
    (hfrom : args.from_nid = none) (hto : args.to_nid = none)
    (hall : ∀ lav, YekLavStore.get s .allNids = some lav → ∃ v, lav = .allNids v) :
    createNode s args genNid genEid now =
      (YekLavStore.set s
        [⟨.allNids, .allNids (allNidsTags s ++
          [⟨genNid, args.created_at.getD now⟩])⟩,
         ⟨.nidToNode genNid,
          .nidToNode
            { nid := genNid, ntype := args.ntype.getD NodeType.Text,
              text := args.text, extattrs := args.extattrs,
              index_text := args.index_text,
              created_at := args.created_at.getD now,
              updated_at := args.created_at.getD now }
            none none⟩] >>=
       fun s₂ => .ok (s₂, genNid)) := by
  simp only [createNode, createNodeRecords, horigin, hvia, hfrom, hto,
    originIndexRecords, pipeIndexRecords, createEdgeRecords,
    prepareAppend_allNids s _ hall, except_bind_ok_left, Option.getD,
    List.length_nil, gt_iff_lt, Nat.lt_irrefl, or_self, if_false,
    List.append_nil, List.cons_append, List.nil_append]

theorem edgesAt_eq_of_get (s : Substrate) (n : Nid) (v : List TEdgeJson)
    (h : YekLavStore.get s (.nidToEdge n) = some (.nidToEdge v)) :
    edgesAt s n = v := by
  unfold edgesAt
  rw [h]

theorem edgesAt_eq_of_get_none (s : Substrate) (n : Nid)
    (h : YekLavStore.get s (.nidToEdge n) = none) : edgesAt s n = [] := by
  unfold edgesAt
  rw [h]

theorem nodeOriginAt_eq_of_get (s : Substrate) (n : Nid) (v : TNodeJson)
    (o : Option OriginId) (c : Option NodeCreatedVia)
    (h : YekLavStore.get s (.nidToNode n) = some (.nidToNode v o c)) :
    nodeOriginAt s n = o := by
  unfold nodeOriginAt
  rw [h]

theorem prepareRemoval_edges_eq (s : Substrate) (n : Nid) (criteria : List Nid)
    (edges : List TEdgeJson)
    (h : YekLavStore.get s (.nidToEdge n) = some (.nidToEdge edges)) :
    YekLavStore.prepareRemoval s (.nidToEdge n) criteria =
      .ok ⟨.nidToEdge n, .nidToEdge (edges.filter
        (fun e => !(criteria.contains e.from_nid) &&
          !(criteria.contains e.to_nid)))⟩ := by
  unfold YekLavStore.prepareRemoval
  rw [h]
  rfl

theorem prepareRemoval_allNids_eq (s : Substrate) (criteria : List Nid)
    (tags : List NodeTag)
    (h : YekLavStore.get s .allNids = some (.allNids tags)) :
    YekLavStore.prepareRemoval s .allNids criteria =
      .ok ⟨.allNids, .allNids (tags.filter
        (fun t => !(criteria.contains t.nid)))⟩ := by
  unfold YekLavStore.prepareRemoval
  rw [h]
  rfl

theorem getAllNids_eq (s : Substrate) :
    getAllNids s = ((allNidsTags s).mergeSort
      (fun a b => decide (b.created_at ≤ a.created_at))).map (fun t => t.nid) := by
  unfold getAllNids allNidsTags
  cases YekLavStore.get s .allNids with
  | none => simp
  | some lav => cases lav <;> simp

theorem createSeq_allNidsTags (calls : List CreateCall) (s₀ s : Substrate)
    (ns : List Nid) (h : createSeq s₀ calls = .ok (s, ns)) :
    ns = calls.map (fun c => c.genNid) ∧
    allNidsTags s = allNidsTags s₀ ++
      calls.map (fun c => NodeTag.mk c.genNid (c.args.created_at.getD c.now)) := by
  induction calls generalizing s₀ ns with
  | nil =>
    rw [createSeq] at h
    injection h with h
    injection h with h₁ h₂
    subst h₁
    subst h₂
    simp
  | cons c rest ih =>
    rw [createSeq] at h
    rw [except_bind_ok] at h
    obtain ⟨r, hcreate, h⟩ := h
    rw [except_bind_ok] at h
    obtain ⟨r₂, hrest, h⟩ := h
    injection h with h
    injection h with h₁ h₂
    subst h₁
    subst h₂
    have hcr : createNode s₀ c.args c.genNid c.genEid c.now = .ok (r.1, r.2) := by
      rw [Prod.mk.eta]
      exact hcreate
    obtain ⟨hnid, _, htags⟩ := createNode_ok_inv s₀ c.args c.genNid c.genEid c.now
      r.1 r.2 hcr
    obtain ⟨hns, htags₂⟩ := ih r.1 r₂.2 (by rw [Prod.mk.eta]; exact hrest)
    constructor
    · simp only [List.map_cons]
      rw [← hns, ← hnid]
    · rw [htags₂, htags]
      simp

/-! ### Lemmas about `getAssociations` -/

theorem getAssociations_toList_mem (s : Substrate) (origin other : OriginId)
    (assoc : UserExternalAssociationType)
    (hmem : OriginToExtAssociationValue.mk .toSide other assoc ∈ assocBucketAt s origin) :
    ∃ e ∈ (getAssociations s origin).toList,
      e.fromEnd.origin_hash = origin.id ∧ e.toEnd.origin_hash = other.id ∧
      e.association = assoc := by
  have hlen : ¬ ((assocBucketAt s origin).length = 0) := by
    intro h
    rw [List.length_eq_zero] at h
    rw [h] at hmem
    cases hmem
  simp only [getAssociations]
  rw [if_neg hlen]
  refine ⟨_, List.mem_filterMap.mpr ⟨_, hmem, rfl⟩, rfl, rfl, rfl⟩

theorem getAssociations_fromList_mem (s : Substrate) (origin other : OriginId)
    (assoc : UserExternalAssociationType)
    (hmem : OriginToExtAssociationValue.mk .fromSide other assoc ∈ assocBucketAt s origin) :
    ∃ e ∈ (getAssociations s origin).fromList,
      e.fromEnd.origin_hash = other.id ∧ e.toEnd.origin_hash = origin.id ∧
      e.association = assoc := by
  have hlen : ¬ ((assocBucketAt s origin).length = 0) := by
    intro h
    rw [List.length_eq_zero] at h
    rw [h] at hmem
    cases hmem
  simp only [getAssociations]
  rw [if_neg hlen]
  refine ⟨_, List.mem_filterMap.mpr ⟨_, hmem, rfl⟩, rfl, rfl, rfl⟩

/-! ## Claims -/

/-- C6: For every batch passed to the Record Store's set operation, if any
key/value pair in the batch has mismatched kind tags, or if two entries in
the batch target the same substrate key, set throws an error and performs no
substrate write (in the embedding an `error` result leaves the substrate
untouched — the bulk write is only reached in the `ok` case); otherwise it
performs exactly one bulk write. -/
theorem C6_set_batch_validation (s : Substrate) (items : List YekLav) :
    ((∃ it ∈ items, it.yek.kind ≠ it.lav.kind) →
      ∃ yk lk, YekLavStore.set s items = .error (.mismatchedKinds yk lk)) ∧
    ((∀ it ∈ items, it.yek.kind = it.lav.kind) → ¬ (keysOf items).Nodup →
      ∃ k, YekLavStore.set s items = .error (.duplicateKey k)) ∧
    ((∀ it ∈ items, it.yek.kind = it.lav.kind) → (keysOf items).Nodup →
      YekLavStore.set s items = .ok (bulkWrite s (recordsOf items))) :=
  ⟨fun h => set_mismatch s items h,
   fun h₁ h₂ => set_dup s items h₁ h₂,
   fun h₁ h₂ => set_ok s items h₁ h₂⟩

theorem C6_set_batch_validation_witness :
    (YekLavStore.set Substrate.empty
        [⟨.userAccountInfo, Lav.userAccountInfo ("acc")⟩] =
      .ok (bulkWrite Substrate.empty
        (recordsOf [⟨.userAccountInfo, Lav.userAccountInfo ("acc")⟩]))) ∧
    (∃ k, YekLavStore.set Substrate.empty
        [⟨.allNids, Lav.allNids []⟩, ⟨.allNids, Lav.allNids []⟩] =
      .error (.duplicateKey k)) ∧
    (∃ yk lk, YekLavStore.set Substrate.empty
        [⟨.allNids, Lav.userAccountInfo ("acc")⟩] =
      .error (.mismatchedKinds yk lk)) :=
  ⟨(C6_set_batch_validation Substrate.empty _).2.2 (by decide) (by decide),
   (C6_set_batch_validation Substrate.empty _).2.1 (by decide) (by decide),
   (C6_set_batch_validation Substrate.empty _).1 (by decide)⟩

/-- C7: For every list of requested node ids, the batch get operation returns
records only for the ids whose canonical record exists (every returned node is
the stored canonical record of some requested id — in particular no
placeholder is ever returned), and ids with no record are silently omitted
while every requested id that does have a record contributes it to the result.
The operation never fails: `getNodeBatch` is a total function into a plain
list, with no error outcome in its type. -/
theorem C7_batch_get_missing_dropped (s : Substrate) (nids : List Nid) :
    (∀ node ∈ getNodeBatch s nids, ∃ nid ∈ nids, ∃ o c,
      YekLavStore.get s (.nidToNode nid) = some (.nidToNode node o c)) ∧
    (∀ nid ∈ nids, ∀ v o c,
      YekLavStore.get s (.nidToNode nid) = some (.nidToNode v o c) →
      v ∈ getNodeBatch s nids) := by
  constructor
  · intro node hnode
    simp only [getNodeBatch, List.mem_filterMap] at hnode
    obtain ⟨yl, hylmem, hylproj⟩ := hnode
    have hsound := getBatch_sound s _ yl hylmem
    obtain ⟨nid, hnid, hyek⟩ := List.mem_map.mp hsound.1
    cases hlav : yl.lav with
    | nidToNode v o c =>
      rw [hlav] at hylproj
      simp only [NodeUtil.fromJson, Option.some.injEq] at hylproj
      subst hylproj
      refine ⟨nid, hnid, o, c, ?_⟩
      have := hsound.2
      rw [← hyek, hlav] at this
      exact this
    | allNids v => rw [hlav] at hylproj; cases hylproj
    | originToNid v => rw [hlav] at hylproj; cases hylproj
    | nidToEdge v => rw [hlav] at hylproj; cases hylproj
    | originToActivity v => rw [hlav] at hylproj; cases hylproj
    | extPipeline v => rw [hlav] at hylproj; cases hylproj
    | extPipelineToNid v => rw [hlav] at hylproj; cases hylproj
    | originToExtAssociation v => rw [hlav] at hylproj; cases hylproj
    | nidToNodeSimilaritySearchInfo v => rw [hlav] at hylproj; cases hylproj
    | userAccountInfo v => rw [hlav] at hylproj; cases hylproj
  · intro nid hnid v o c hget
    have hyl := getBatch_complete s _ (.nidToNode nid) _
      (List.mem_map_of_mem _ hnid) hget
    simp only [getNodeBatch, List.mem_filterMap]
    exact ⟨⟨.nidToNode nid, .nidToNode v o c⟩, hyl, rfl⟩

theorem C7_batch_get_missing_dropped_witness :
    TNodeJson.mk ("a") 0 none none none 0 0 ∈
      getNodeBatch
        [("nid->node:a", Lav.nidToNode (TNodeJson.mk ("a") 0 none none none 0 0) none none)]
        ["a", "b"] :=
  (C7_batch_get_missing_dropped _ _).2 ("a") (by decide) _ none none (by decide)

/-- C1: For every two nodes A and B created with an edge A→B (A created
bare, B created with `from_nid = [A]`, which materializes the A→B edge in
both adjacency buckets), after `deleteNode(A)` completes: B's adjacency
bucket contains zero edges referencing A's id, A's id is absent from the
global listing, and `getNode(A)` fails with a not-found error. -/
theorem C1_cascading_delete (argsA argsB : NodeCreateArgs) (nidA nidB : Nid)
    (genEidA genEidB : Nat → Eid) (nowA nowB : Nat)
    (hAB : nidA ≠ nidB)
    (hAo : argsA.origin = none) (hAv : argsA.created_via = none)
    (hAf : argsA.from_nid = none) (hAt : argsA.to_nid = none)
    (hBo : argsB.origin = none) (hBv : argsB.created_via = none)
    (hBf : argsB.from_nid = some [nidA]) (hBt : argsB.to_nid = none) :
    ∃ s₁ s₂ s₃,
      createNode Substrate.empty argsA nidA genEidA nowA = .ok (s₁, nidA) ∧
      createNode s₁ argsB nidB genEidB nowB = .ok (s₂, nidB) ∧
      deleteNode s₂ nidA = .ok s₃ ∧
      (∀ e ∈ edgesAt s₃ nidB, e.from_nid ≠ nidA ∧ e.to_nid ≠ nidA) ∧
      nidA ∉ getAllNids s₃ ∧
      getNode s₃ nidA = .error (.nodeNotFound nidA) := by
  have hBA : nidB ≠ nidA := Ne.symm hAB
  -- Step A: create node A on the empty substrate.
  have hallE : ∀ lav, YekLavStore.get Substrate.empty .allNids = some lav →
      ∃ v, lav = .allNids v := by
    intro lav h
    cases h
  have hcrA := createNode_no_edges Substrate.empty argsA nidA genEidA nowA
    hAo hAv hAf hAt hallE
  rw [show allNidsTags Substrate.empty = [] from rfl] at hcrA
  rw [List.nil_append] at hcrA
  have hkindsA : ∀ it ∈
      [YekLav.mk .allNids (.allNids [⟨nidA, argsA.created_at.getD nowA⟩]),
       YekLav.mk (.nidToNode nidA)
        (.nidToNode
          { nid := nidA, ntype := argsA.ntype.getD NodeType.Text,
            text := argsA.text, extattrs := argsA.extattrs,
            index_text := argsA.index_text,
            created_at := argsA.created_at.getD nowA,
            updated_at := argsA.created_at.getD nowA }
          none none)],
      it.yek.kind = it.lav.kind := by
    intro it hit
    rcases List.mem_cons.mp hit with h | h
    · subst h
      rfl
    · rcases List.mem_singleton.mp h with h
      subst h
      rfl
  have hkeysA : (keysOf
      [YekLav.mk .allNids (.allNids [⟨nidA, argsA.created_at.getD nowA⟩]),
       YekLav.mk (.nidToNode nidA)
        (.nidToNode
          { nid := nidA, ntype := argsA.ntype.getD NodeType.Text,
            text := argsA.text, extattrs := argsA.extattrs,
            index_text := argsA.index_text,
            created_at := argsA.created_at.getD nowA,
            updated_at := argsA.created_at.getD nowA }
          none none)]).Nodup := by
    simp [keysOf, stringify_eq_iff]
  have hsetA := set_ok Substrate.empty _ hkindsA hkeysA
  rw [hsetA] at hcrA
  rw [except_bind_ok_left] at hcrA
  generalize hs₁v : bulkWrite Substrate.empty (recordsOf
      [YekLav.mk .allNids (.allNids [⟨nidA, argsA.created_at.getD nowA⟩]),
       YekLav.mk (.nidToNode nidA)
        (.nidToNode
          { nid := nidA, ntype := argsA.ntype.getD NodeType.Text,
            text := argsA.text, extattrs := argsA.extattrs,
            index_text := argsA.index_text,
            created_at := argsA.created_at.getD nowA,
            updated_at := argsA.created_at.getD nowA }
          none none)]) = s₁v at hcrA hsetA
  -- Reads on s₁.
  have hg1 := get_set Substrate.empty s₁v _ .allNids hsetA hkindsA hkeysA
  simp only [List.find?, show (Yek.allNids == Yek.allNids) = true from rfl] at hg1
  have hg2 : ∀ n, YekLavStore.get s₁v (.nidToEdge n) = none := by
    intro n
    have hg := get_set Substrate.empty s₁v _ (.nidToEdge n) hsetA hkindsA hkeysA
    simp only [List.find?, show (Yek.allNids == Yek.nidToEdge n) = false from rfl,
      show (Yek.nidToNode nidA == Yek.nidToEdge n) = false from rfl] at hg
    exact hg
  have hg3 := get_set Substrate.empty s₁v _ (.nidToNode nidA) hsetA hkindsA hkeysA
  simp only [List.find?, show (Yek.allNids == Yek.nidToNode nidA) = false from rfl,
    show (Yek.nidToNode nidA == Yek.nidToNode nidA) = true from by simp] at hg3
  -- Step B: create node B with from_nid = [A].
  have hallB : ∀ lav, YekLavStore.get s₁v .allNids = some lav →
      ∃ v, lav = .allNids v := by
    intro lav h
    rw [hg1] at h
    injection h with h
    exact ⟨_, h.symm⟩
  have hedgeB : ∀ n lav, YekLavStore.get s₁v (.nidToEdge n) = some lav →
      ∃ v, lav = .nidToEdge v := by
    intro n lav h
    rw [hg2 n] at h
    cases h
  have hneB : (argsB.from_nid.getD []).length > 0 ∨
      (argsB.to_nid.getD []).length > 0 := by
    left
    rw [hBf]
    simp
  have hcrB := createNode_with_edges s₁v argsB nidB genEidB nowB hBo hBv
    hallB hedgeB hneB
  have hbatchB : createNodeBatch s₁v argsB nidB genEidB nowB =
      [YekLav.mk .allNids (.allNids
        [⟨nidA, argsA.created_at.getD nowA⟩, ⟨nidB, argsB.created_at.getD nowB⟩]),
       YekLav.mk (.nidToNode nidB)
        (.nidToNode
          { nid := nidB, ntype := argsB.ntype.getD NodeType.Text,
            text := argsB.text, extattrs := argsB.extattrs,
            index_text := argsB.index_text,
            created_at := argsB.created_at.getD nowB,
            updated_at := argsB.created_at.getD nowB }
          none none),
       YekLav.mk (.nidToEdge nidB) (.nidToEdge
        [⟨genEidB 0, nidA, nidB, argsB.created_at.getD nowB,
          argsB.created_at.getD nowB, false⟩]),
       YekLav.mk (.nidToEdge nidA) (.nidToEdge
        [⟨genEidB 0, nidA, nidB, argsB.created_at.getD nowB,
          argsB.created_at.getD nowB, false⟩])] := by
    rw [createNodeBatch, allNidsTags_eq_of_get _ _ hg1]
    unfold createFromEdges createToEdges
    rw [hBf, hBt, hBo, hBv]
    rw [show (some [nidA]).getD ([] : List Nid) = [nidA] from rfl,
        show (none : Option (List Nid)).getD ([] : List Nid) = [] from rfl]
    simp only [List.mapIdx_nil, List.mapIdx_singleton, List.append_nil,
      List.map_nil, List.map_cons]
    rw [edgesAt_eq_of_get_none _ _ (hg2 nidA)]
    simp
  rw [hbatchB] at hcrB
  have hkindsB : ∀ it ∈
      [YekLav.mk .allNids (.allNids
        [⟨nidA, argsA.created_at.getD nowA⟩, ⟨nidB, argsB.created_at.getD nowB⟩]),
       YekLav.mk (.nidToNode nidB)
        (.nidToNode
          { nid := nidB, ntype := argsB.ntype.getD NodeType.Text,
            text := argsB.text, extattrs := argsB.extattrs,
            index_text := argsB.index_text,
            created_at := argsB.created_at.getD nowB,
            updated_at := argsB.created_at.getD nowB }
          none none),
       YekLav.mk (.nidToEdge nidB) (.nidToEdge
        [⟨genEidB 0, nidA, nidB, argsB.created_at.getD nowB,
          argsB.created_at.getD nowB, false⟩]),
       YekLav.mk (.nidToEdge nidA) (.nidToEdge
        [⟨genEidB 0, nidA, nidB, argsB.created_at.getD nowB,
          argsB.created_at.getD nowB, false⟩])],
      it.yek.kind = it.lav.kind := by
    intro it hit
    simp only [List.mem_cons, List.not_mem_nil, or_false] at hit
    rcases hit with h | h | h | h <;> (subst h; rfl)
  have hkeysB : (keysOf
      [YekLav.mk .allNids (.allNids
        [⟨nidA, argsA.created_at.getD nowA⟩, ⟨nidB, argsB.created_at.getD nowB⟩]),
       YekLav.mk (.nidToNode nidB)
        (.nidToNode
          { nid := nidB, ntype := argsB.ntype.getD NodeType.Text,
            text := argsB.text, extattrs := argsB.extattrs,
            index_text := argsB.index_text,
            created_at := argsB.created_at.getD nowB,
            updated_at := argsB.created_at.getD nowB }
          none none),
       YekLav.mk (.nidToEdge nidB) (.nidToEdge
        [⟨genEidB 0, nidA, nidB, argsB.created_at.getD nowB,
          argsB.created_at.getD nowB, false⟩]),
       YekLav.mk (.nidToEdge nidA) (.nidToEdge
        [⟨genEidB 0, nidA, nidB, argsB.created_at.getD nowB,
          argsB.created_at.getD nowB, false⟩])]).Nodup := by
    simp [keysOf, stringify_eq_iff, hBA]
  have hsetB := set_ok s₁v _ hkindsB hkeysB
  rw [hsetB] at hcrB
  rw [except_bind_ok_left] at hcrB
  generalize hs₂v : bulkWrite s₁v (recordsOf
      [YekLav.mk .allNids (.allNids
        [⟨nidA, argsA.created_at.getD nowA⟩, ⟨nidB, argsB.created_at.getD nowB⟩]),
       YekLav.mk (.nidToNode nidB)
        (.nidToNode
          { nid := nidB, ntype := argsB.ntype.getD NodeType.Text,
            text := argsB.text, extattrs := argsB.extattrs,
            index_text := argsB.index_text,
            created_at := argsB.created_at.getD nowB,
            updated_at := argsB.created_at.getD nowB }
          none none),
       YekLav.mk (.nidToEdge nidB) (.nidToEdge
        [⟨genEidB 0, nidA, nidB, argsB.created_at.getD nowB,
          argsB.created_at.getD nowB, false⟩]),
       YekLav.mk (.nidToEdge nidA) (.nidToEdge
        [⟨genEidB 0, nidA, nidB, argsB.created_at.getD nowB,
          argsB.created_at.getD nowB, false⟩])]) = s₂v at hcrB hsetB
  -- Reads on s₂.
  have hg4 := get_set s₁v s₂v _ .allNids hsetB hkindsB hkeysB
  simp only [List.find?, show (Yek.allNids == Yek.allNids) = true from rfl] at hg4
  have hg5 := get_set s₁v s₂v _ (.nidToEdge nidA) hsetB hkindsB hkeysB
  simp only [List.find?, show (Yek.allNids == Yek.nidToEdge nidA) = false from rfl,
    show (Yek.nidToNode nidB == Yek.nidToEdge nidA) = false from rfl,
    show (Yek.nidToEdge nidB == Yek.nidToEdge nidA) = false from by simp [hBA],
    show (Yek.nidToEdge nidA == Yek.nidToEdge nidA) = true from by simp] at hg5
  have hg6 := get_set s₁v s₂v _ (.nidToEdge nidB) hsetB hkindsB hkeysB
  simp only [List.find?, show (Yek.allNids == Yek.nidToEdge nidB) = false from rfl,
    show (Yek.nidToNode nidB == Yek.nidToEdge nidB) = false from rfl,
    show (Yek.nidToEdge nidB == Yek.nidToEdge nidB) = true from by simp] at hg6
  have hg7 := get_set s₁v s₂v _ (.nidToNode nidA) hsetB hkindsB hkeysB
  simp only [List.find?, show (Yek.allNids == Yek.nidToNode nidA) = false from rfl,
    show (Yek.nidToNode nidB == Yek.nidToNode nidA) = false from by simp [hBA],
    show (Yek.nidToEdge nidB == Yek.nidToNode nidA) = false from rfl,
    show (Yek.nidToEdge nidA == Yek.nidToNode nidA) = false from rfl] at hg7
  rw [hg3] at hg7
  -- The cascading delete of A.
  have hlink : prepareLinkedRemovals s₂v [nidA] =
      .ok [YekLav.mk (.nidToEdge nidB) (.nidToEdge [])] := by
    rw [prepareLinkedRemovals]
    rw [edgesAt_eq_of_get _ _ _ hg5]
    rw [show ([TEdgeJson.mk (genEidB 0) nidA nidB (argsB.created_at.getD nowB)
        (argsB.created_at.getD nowB) false].map
        (fun e => if e.from_nid = nidA then e.to_nid else e.from_nid)) = [nidB]
      from by simp]
    rw [mapM_ok_of_all [nidB] _
      (fun _ => YekLav.mk (.nidToEdge nidB) (.nidToEdge []))
      (by
        intro x hx
        rcases List.mem_singleton.mp hx with h
        subst h
        rw [prepareRemoval_edges_eq _ _ _ _ hg6]
        simp)]
    rw [except_bind_ok_left, prepareLinkedRemovals]
    rfl
  have hallrem : YekLavStore.prepareRemoval s₂v .allNids [nidA] =
      .ok (YekLav.mk .allNids
        (.allNids [⟨nidB, argsB.created_at.getD nowB⟩])) := by
    rw [prepareRemoval_allNids_eq _ _ _ hg4]
    simp [hBA]
  have horigrem : prepareOriginRemovals s₂v [nidA] = .ok [] := by
    rw [prepareOriginRemovals]
    rw [prepareOriginRemovals]
    rw [except_bind_ok_left, nodeOriginAt_eq_of_get _ _ _ _ _ hg7]
  have hplan : prepareNodeRemoval s₂v [nidA] =
      .ok ([Yek.nidToNode nidA, Yek.nidToEdge nidA,
            Yek.nidToNodeSimilaritySearchInfo nidA],
           [YekLav.mk (.nidToEdge nidB) (.nidToEdge []),
            YekLav.mk .allNids
              (.allNids [⟨nidB, argsB.created_at.getD nowB⟩])]) := by
    rw [prepareNodeRemoval, hlink, except_bind_ok_left, hallrem,
      except_bind_ok_left, horigrem, except_bind_ok_left]
    rfl
  have hkindsD : ∀ it ∈
      [YekLav.mk (.nidToEdge nidB) (.nidToEdge []),
       YekLav.mk .allNids (.allNids [⟨nidB, argsB.created_at.getD nowB⟩])],
      it.yek.kind = it.lav.kind := by
    intro it hit
    rcases List.mem_cons.mp hit with h | h
    · subst h
      rfl
    · rcases List.mem_singleton.mp h with h
      subst h
      rfl
  have hkeysD : (keysOf
      [YekLav.mk (.nidToEdge nidB) (.nidToEdge []),
       YekLav.mk .allNids
        (.allNids [⟨nidB, argsB.created_at.getD nowB⟩])]).Nodup := by
    simp [keysOf, stringify_eq_iff]
  have hsetD := set_ok (YekLavStore.remove s₂v
    [Yek.nidToNode nidA, Yek.nidToEdge nidA,
     Yek.nidToNodeSimilaritySearchInfo nidA]) _ hkindsD hkeysD
  have hdelete : deleteNode s₂v nidA = .ok
      (bulkWrite (YekLavStore.remove s₂v
        [Yek.nidToNode nidA, Yek.nidToEdge nidA,
         Yek.nidToNodeSimilaritySearchInfo nidA])
        (recordsOf
          [YekLav.mk (.nidToEdge nidB) (.nidToEdge []),
           YekLav.mk .allNids
            (.allNids [⟨nidB, argsB.created_at.getD nowB⟩])])) := by
    rw [deleteNode, hplan, except_bind_ok_left]
    exact hsetD
  -- Reads on s₃.
  have hg8 := get_set _ _ _ (.nidToEdge nidB) hsetD hkindsD hkeysD
  simp only [List.find?,
    show (Yek.nidToEdge nidB == Yek.nidToEdge nidB) = true from by simp] at hg8
  have hg9 := get_set _ _ _ .allNids hsetD hkindsD hkeysD
  simp only [List.find?, show (Yek.nidToEdge nidB == Yek.allNids) = false from rfl,
    show (Yek.allNids == Yek.allNids) = true from rfl] at hg9
  have hg10 := get_set _ _ _ (.nidToNode nidA) hsetD hkindsD hkeysD
  simp only [List.find?,
    show (Yek.nidToEdge nidB == Yek.nidToNode nidA) = false from rfl,
    show (Yek.allNids == Yek.nidToNode nidA) = false from rfl] at hg10
  rw [show YekLavStore.get (YekLavStore.remove s₂v
      [Yek.nidToNode nidA, Yek.nidToEdge nidA,
       Yek.nidToNodeSimilaritySearchInfo nidA]) (.nidToNode nidA) = none from by
    rw [YekLavStore.get, YekLavStore.remove, getRec_removeKeys]
    simp] at hg10
  -- Assemble.
  refine ⟨s₁v, s₂v, _, hcrA, hcrB, hdelete, ?_, ?_, ?_⟩
  · rw [edgesAt_eq_of_get _ _ _ hg8]
    simp
  · rw [getAllNids_eq, allNidsTags_eq_of_get _ _ hg9]
    simp [hAB]
  · unfold getNode
    rw [hg10]

theorem C1_cascading_delete_witness :
    ∃ s₁ s₂ s₃,
      createNode Substrate.empty
        ⟨none, none, none, none, none, none, none, none, none⟩
        ("a") (fun _ => ("e")) 7 = .ok (s₁, "a") ∧
      createNode s₁
        ⟨none, none, none, none, none, none, some ["a"], none, none⟩
        ("b") (fun _ => ("f")) 8 = .ok (s₂, "b") ∧
      deleteNode s₂ ("a") = .ok s₃ ∧
      (∀ e ∈ edgesAt s₃ ("b"), e.from_nid ≠ "a" ∧ e.to_nid ≠ "a") ∧
      ("a" : Nid) ∉ getAllNids s₃ ∧
      getNode s₃ ("a") = .error (.nodeNotFound ("a")) :=
  C1_cascading_delete
    ⟨none, none, none, none, none, none, none, none, none⟩
    ⟨none, none, none, none, none, none, some ["a"], none, none⟩
    ("a") ("b") (fun _ => ("e")) (fun _ => ("f")) 7 8
    (by decide) rfl rfl rfl rfl rfl rfl rfl rfl

/-- C10: For every `createNode` call in which the same neighbor id occurs
more than once across the supplied `from_nid` and `to_nid` lists (including
the same id appearing in both lists), `createNode` throws the duplicate-key
batch error and writes nothing (the batch is rejected before the single bulk
write is reached), because two prepared appends target that neighbor's single
adjacency-bucket key within one `set` batch.  (Stated for creations without
origin/pipeline extras, over any substrate whose `all-nids` and adjacency
records are well-shaped, so that every `prepareAppend` succeeds and the
failure is precisely the duplicate-key check.) -/
theorem C10_duplicate_neighbor_rejected (s : Substrate) (args : NodeCreateArgs)
    (genNid : Nid) (genEid : Nat → Eid) (now : Nat)
    (hdup : ¬ ((args.from_nid.getD []) ++ (args.to_nid.getD [])).Nodup)
    (horigin : args.origin = none) (hvia : args.created_via = none)
    (hall : ∀ lav, YekLavStore.get s .allNids = some lav → ∃ v, lav = .allNids v)
    (hedge : ∀ n lav, YekLavStore.get s (.nidToEdge n) = some lav →
      ∃ v, lav = .nidToEdge v) :
    ∃ k, createNode s args genNid genEid now = .error (.duplicateKey k) := by
  have hne : (args.from_nid.getD []).length > 0 ∨
      (args.to_nid.getD []).length > 0 := by
    cases hf : args.from_nid.getD [] with
    | cons a l =>
      left
      simp [hf]
    | nil =>
      cases ht : args.to_nid.getD [] with
      | cons a l =>
        right
        simp [ht]
      | nil =>
        exact absurd (by rw [hf, ht]; exact List.nodup_nil) hdup
  rw [createNode_with_edges s args genNid genEid now horigin hvia hall hedge hne]
  have hkinds : ∀ it ∈ createNodeBatch s args genNid genEid now,
      it.yek.kind = it.lav.kind := by
    intro it hit
    simp only [createNodeBatch, List.append_assoc, List.cons_append,
      List.nil_append, List.mem_cons, List.mem_append, List.mem_map] at hit
    rcases hit with h | h | h | hit
    · subst h
      rfl
    · subst h
      rfl
    · subst h
      rfl
    · rcases hit with ⟨e, _, h⟩ | ⟨e, _, h⟩ <;> (subst h; rfl)
  have hproj₁ : (createFromEdges args genNid genEid now).map
      (fun e => stringify (Yek.nidToEdge e.from_nid)) =
      (args.from_nid.getD []).map (fun n => stringify (Yek.nidToEdge n)) := by
    unfold createFromEdges
    exact mapIdx_map_proj _ _ _ _ (fun i a => rfl)
  have hproj₂ : (createToEdges args genNid genEid now).map
      (fun e => stringify (Yek.nidToEdge e.to_nid)) =
      (args.to_nid.getD []).map (fun n => stringify (Yek.nidToEdge n)) := by
    unfold createToEdges
    exact mapIdx_map_proj _ _ _ _ (fun i a => rfl)
  have hkeysbad : ¬ (keysOf (createNodeBatch s args genNid genEid now)).Nodup := by
    intro hn
    have hkeys_eq : keysOf (createNodeBatch s args genNid genEid now) =
        stringify .allNids :: stringify (.nidToNode genNid) ::
        stringify (.nidToEdge genNid) ::
        ((args.from_nid.getD []).map (fun n => stringify (Yek.nidToEdge n)) ++
         (args.to_nid.getD []).map (fun n => stringify (Yek.nidToEdge n))) := by
      simp only [keysOf, createNodeBatch, List.append_assoc, List.cons_append,
        List.nil_append, List.map_cons, List.map_append, List.map_map]
      rw [show ((fun it : YekLav => stringify it.yek) ∘
        (fun e : TEdgeJson => YekLav.mk (Yek.nidToEdge e.from_nid)
          (Lav.nidToEdge (edgesAt s e.from_nid ++ [e])))) =
        (fun e : TEdgeJson => stringify (Yek.nidToEdge e.from_nid)) from rfl]
      rw [show ((fun it : YekLav => stringify it.yek) ∘
        (fun e : TEdgeJson => YekLav.mk (Yek.nidToEdge e.to_nid)
          (Lav.nidToEdge (edgesAt s e.to_nid ++ [e])))) =
        (fun e : TEdgeJson => stringify (Yek.nidToEdge e.to_nid)) from rfl]
      rw [hproj₁, hproj₂]
    rw [hkeys_eq] at hn
    have h₁ := (List.nodup_cons.mp hn).2
    have h₂ := (List.nodup_cons.mp h₁).2
    have h₃ := (List.nodup_cons.mp h₂).2
    rw [← List.map_append] at h₃
    exact hdup (List.Nodup.of_map _ h₃)
  obtain ⟨k, hk⟩ := set_dup s _ hkinds hkeysbad
  exact ⟨k, by rw [hk]; rfl⟩

theorem C10_duplicate_neighbor_rejected_witness :
    ∃ k, createNode Substrate.empty
        ⟨none, none, none, none, none, none, some ["b", "b"], none, none⟩
        ("a") (fun _ => ("e")) 7 = .error (.duplicateKey k) :=
  C10_duplicate_neighbor_rejected Substrate.empty
    ⟨none, none, none, none, none, none, some ["b", "b"], none, none⟩
    ("a") (fun _ => ("e")) 7 (by decide) rfl rfl
    (by intro lav hl; cases hl) (by intro n lav hl; cases hl)

/-- C2: For all valid creation arguments (any arguments on which `createNode`
succeeds), `getNode` applied to the id returned by `createNode` returns a
node whose content fields — text, extended attributes, index text, type tag —
equal the creation input, and whose updated-at timestamp equals its
created-at timestamp. -/
theorem C2_round_trip (s : Substrate) (args : NodeCreateArgs) (genNid : Nid)
    (genEid : Nat → Eid) (now : Nat) (s₂ : Substrate) (nid : Nid)
    (h : createNode s args genNid genEid now = .ok (s₂, nid)) :
    ∃ node, getNode s₂ nid = .ok node ∧
      node.text = args.text ∧ node.extattrs = args.extattrs ∧
      node.index_text = args.index_text ∧
      node.ntype = args.ntype.getD NodeType.Text ∧
      node.created_at = args.created_at.getD now ∧
      node.updated_at = node.created_at := by
  obtain ⟨hnid, hget, _⟩ := createNode_ok_inv s args genNid genEid now s₂ nid h
  subst hnid
  refine ⟨{ nid := nid,
            ntype := args.ntype.getD NodeType.Text,
            text := args.text,
            extattrs := args.extattrs,
            index_text := args.index_text,
            created_at := args.created_at.getD now,
            updated_at := args.created_at.getD now },
    ?_, rfl, rfl, rfl, rfl, rfl, rfl⟩
  unfold getNode
  rw [hget]
  rfl

theorem C2_round_trip_witness :
    ∃ node,
      getNode
        [("nid->node:a",
          Lav.nidToNode (TNodeJson.mk ("a") 0 (some ("t")) none none 7 7) none none),
         ("all-nids", Lav.allNids [⟨"a", 7⟩])] ("a") = .ok node ∧
      node.text = some ("t") ∧ node.extattrs = none ∧ node.index_text = none ∧
      node.ntype = (Option.none).getD NodeType.Text ∧
      node.created_at = (Option.none).getD 7 ∧
      node.updated_at = node.created_at :=
  C2_round_trip Substrate.empty
    ⟨some ("t"), none, none, none, none, none, none, none, none⟩
    ("a") (fun _ => ("e")) 7 _ ("a") rfl

/-- C3: For every two distinct origins A and B whose buckets do not yet
reference each other, after `recordAssociation(A, B, type)` succeeds:
`getAssociations(A)` reports the relationship in its `to` result list and
`getAssociations(B)` reports it in its `from` result list (both ends carrying
the right origin identifiers and the recorded type); calling
`recordAssociation(A, B, type)` a second time returns success without writing
(the substrate is returned unchanged), leaving exactly one association entry
per side. -/
theorem C3_association_symmetry (s : Substrate) (A B : OriginId)
    (t : UserExternalAssociationType)
    (hAB : A.id ≠ B.id)
    (h₁ : ∀ a ∈ assocBucketAt s A, a.other.id ≠ B.id)
    (h₂ : ∀ a ∈ assocBucketAt s B, a.other.id ≠ A.id) :
    ∃ s₂, recordAssociation s A B t = .ok s₂ ∧
      (∃ e ∈ (getAssociations s₂ A).toList,
        e.fromEnd.origin_hash = A.id ∧ e.toEnd.origin_hash = B.id ∧
        e.association = t) ∧
      (∃ e ∈ (getAssociations s₂ B).fromList,
        e.fromEnd.origin_hash = A.id ∧ e.toEnd.origin_hash = B.id ∧
        e.association = t) ∧
      recordAssociation s₂ A B t = .ok s₂ ∧
      ((assocBucketAt s₂ A).filter (fun a => a.other.id == B.id)).length = 1 ∧
      ((assocBucketAt s₂ B).filter (fun a => a.other.id == A.id)).length = 1 := by
  have hA : A ≠ B := fun he => hAB (congrArg OriginId.id he)
  have hall₁ : ((assocBucketAt s A).all (fun a => a.other.id != B.id)) = true := by
    rw [List.all_eq_true]
    intro a ha
    simpa using h₁ a ha
  have hall₂ : ((assocBucketAt s B).all (fun a => a.other.id != A.id)) = true := by
    rw [List.all_eq_true]
    intro a ha
    simpa using h₂ a ha
  have hkinds : ∀ it ∈
      [YekLav.mk (.originToExtAssociation A)
        (.originToExtAssociation (assocBucketAt s A ++ [⟨.toSide, B, t⟩])),
       YekLav.mk (.originToExtAssociation B)
        (.originToExtAssociation (assocBucketAt s B ++ [⟨.fromSide, A, t⟩]))],
      it.yek.kind = it.lav.kind := by
    intro it hit
    rcases List.mem_cons.mp hit with h | h
    · subst h
      rfl
    · rcases List.mem_singleton.mp h with h
      subst h
      rfl
  have hkeys : (keysOf
      [YekLav.mk (.originToExtAssociation A)
        (.originToExtAssociation (assocBucketAt s A ++ [⟨.toSide, B, t⟩])),
       YekLav.mk (.originToExtAssociation B)
        (.originToExtAssociation (assocBucketAt s B ++ [⟨.fromSide, A, t⟩]))]).Nodup := by
    simp only [keysOf, List.map_cons, List.map_nil, List.nodup_cons,
      List.mem_singleton, List.nodup_nil, List.not_mem_nil, not_false_iff, and_true]
    intro he
    rw [stringify_eq_iff] at he
    exact hA (by injection he)
  have hset := set_ok s _ hkinds hkeys
  have hrec : recordAssociation s A B t =
      .ok (bulkWrite s (recordsOf
        [YekLav.mk (.originToExtAssociation A)
          (.originToExtAssociation (assocBucketAt s A ++ [⟨.toSide, B, t⟩])),
         YekLav.mk (.originToExtAssociation B)
          (.originToExtAssociation (assocBucketAt s B ++ [⟨.fromSide, A, t⟩]))])) := by
    simp only [recordAssociation, hall₁, hall₂, Bool.not_true, Bool.false_eq_true,
      if_false]
    exact hset
  have hbeqAA : (Yek.originToExtAssociation A == Yek.originToExtAssociation A) = true := by
    simp
  have hbeqAB : (Yek.originToExtAssociation A == Yek.originToExtAssociation B) = false := by
    simp [hA]
  have hbeqBB : (Yek.originToExtAssociation B == Yek.originToExtAssociation B) = true := by
    simp
  have hgA := get_set s _ _ (.originToExtAssociation A) hset hkinds hkeys
  simp only [List.find?, hbeqAA] at hgA
  have hgB := get_set s _ _ (.originToExtAssociation B) hset hkinds hkeys
  simp only [List.find?, hbeqAB, hbeqBB] at hgB
  have hbA : assocBucketAt (bulkWrite s (recordsOf
      [YekLav.mk (.originToExtAssociation A)
        (.originToExtAssociation (assocBucketAt s A ++ [⟨.toSide, B, t⟩])),
       YekLav.mk (.originToExtAssociation B)
        (.originToExtAssociation (assocBucketAt s B ++ [⟨.fromSide, A, t⟩]))])) A
      = assocBucketAt s A ++ [⟨.toSide, B, t⟩] := by
    rw [assocBucketAt, hgA]
  have hbB : assocBucketAt (bulkWrite s (recordsOf
      [YekLav.mk (.originToExtAssociation A)
        (.originToExtAssociation (assocBucketAt s A ++ [⟨.toSide, B, t⟩])),
       YekLav.mk (.originToExtAssociation B)
        (.originToExtAssociation (assocBucketAt s B ++ [⟨.fromSide, A, t⟩]))])) B
      = assocBucketAt s B ++ [⟨.fromSide, A, t⟩] := by
    rw [assocBucketAt, hgB]
  refine ⟨_, hrec, ?_, ?_, ?_, ?_, ?_⟩
  · exact getAssociations_toList_mem _ A B t (by rw [hbA]; simp)
  · exact getAssociations_fromList_mem _ B A t (by rw [hbB]; simp)
  · have hdupall : ((assocBucketAt (bulkWrite s (recordsOf
        [YekLav.mk (.originToExtAssociation A)
          (.originToExtAssociation (assocBucketAt s A ++ [⟨.toSide, B, t⟩])),
         YekLav.mk (.originToExtAssociation B)
          (.originToExtAssociation (assocBucketAt s B ++ [⟨.fromSide, A, t⟩]))])) A).all
        (fun a => a.other.id != B.id)) = false := by
      rw [hbA]
      rw [← Bool.not_eq_true, List.all_eq_true]
      intro hforall
      have := hforall ⟨.toSide, B, t⟩ (by simp)
      simp at this
    simp only [recordAssociation, hdupall, Bool.not_false, if_true]
  · rw [hbA, List.filter_append]
    have hnil : (assocBucketAt s A).filter (fun a => a.other.id == B.id) = [] := by
      rw [List.filter_eq_nil_iff]
      intro a ha
      simpa using h₁ a ha
    rw [hnil]
    simp
  · rw [hbB, List.filter_append]
    have hnil : (assocBucketAt s B).filter (fun a => a.other.id == A.id) = [] := by
      rw [List.filter_eq_nil_iff]
      intro a ha
      simpa using h₂ a ha
    rw [hnil]
    simp

theorem C3_association_symmetry_witness :
    ∃ s₂, recordAssociation Substrate.empty ⟨"a"⟩ ⟨"b"⟩ ("t") = .ok s₂ ∧
      (∃ e ∈ (getAssociations s₂ ⟨"a"⟩).toList,
        e.fromEnd.origin_hash = OriginId.id ⟨"a"⟩ ∧
        e.toEnd.origin_hash = OriginId.id ⟨"b"⟩ ∧
        e.association = "t") ∧
      (∃ e ∈ (getAssociations s₂ ⟨"b"⟩).fromList,
        e.fromEnd.origin_hash = OriginId.id ⟨"a"⟩ ∧
        e.toEnd.origin_hash = OriginId.id ⟨"b"⟩ ∧
        e.association = "t") ∧
      recordAssociation s₂ ⟨"a"⟩ ⟨"b"⟩ ("t") = .ok s₂ ∧
      ((assocBucketAt s₂ ⟨"a"⟩).filter
        (fun a => a.other.id == OriginId.id ⟨"b"⟩)).length = 1 ∧
      ((assocBucketAt s₂ ⟨"b"⟩).filter
        (fun a => a.other.id == OriginId.id ⟨"a"⟩)).length = 1 :=
  C3_association_symmetry Substrate.empty ⟨"a"⟩ ⟨"b"⟩ ("t") (by decide)
    (by decide) (by decide)

/-- C4 counterexample: in the state where `from`'s bucket (origin `a`)
references `to` (origin `b`) but `to`'s bucket does not reference `from` —
exactly the situation the claim describes — `recordAssociation` takes the
harmless-duplicate path and returns success without writing, rather than
failing with an error: the duplicate check on `from`'s bucket runs before the
reverse-consistency check is ever reached. -/
theorem C4_reverse_missing_returns_success :
    (∀ a ∈ assocBucketAt
        [("origin->ext-assoc:a",
          Lav.originToExtAssociation [⟨.toSide, ⟨"b"⟩, "t"⟩])] ⟨"b"⟩,
      a.other.id ≠ "a") ∧
    (∃ a ∈ assocBucketAt
        [("origin->ext-assoc:a",
          Lav.originToExtAssociation [⟨.toSide, ⟨"b"⟩, "t"⟩])] ⟨"a"⟩,
      a.other.id = "b") ∧
    recordAssociation
        [("origin->ext-assoc:a",
          Lav.originToExtAssociation [⟨.toSide, ⟨"b"⟩, "t"⟩])] ⟨"a"⟩ ⟨"b"⟩ ("t") =
      .ok [("origin->ext-assoc:a",
        Lav.originToExtAssociation [⟨.toSide, ⟨"b"⟩, "t"⟩])] := by
  refine ⟨by decide, ⟨⟨.toSide, ⟨"b"⟩, "t"⟩, by decide, by decide⟩, rfl⟩

/-- C4 amended: the direction of the consistency check is the mirror image of
the claim — for every call `recordAssociation(from, to, type)` where `from`'s
bucket does not yet reference `to` while `to`'s bucket does reference `from`,
the call fails loudly with an error carrying both origin identifiers and
performs no write (an error result leaves the substrate untouched; the stored
buckets are never repaired).  In the claim's own scenario (forward entry
present, reverse missing) the call instead returns success without writing,
per the counterexample. -/
theorem C4_mirrored_consistency_check (s : Substrate)
    (fromOrigin toOrigin : OriginId) (t : UserExternalAssociationType)
    (h₁ : ∀ a ∈ assocBucketAt s fromOrigin, a.other.id ≠ toOrigin.id)
    (h₂ : ∃ a ∈ assocBucketAt s toOrigin, a.other.id = fromOrigin.id) :
    recordAssociation s fromOrigin toOrigin t =
      .error (.assocInconsistent fromOrigin.id toOrigin.id) := by
  have hall : ((assocBucketAt s fromOrigin).all
      (fun a => a.other.id != toOrigin.id)) = true := by
    rw [List.all_eq_true]
    intro a ha
    simpa using h₁ a ha
  have hrall : ((assocBucketAt s toOrigin).all
      (fun a => a.other.id != fromOrigin.id)) = false := by
    obtain ⟨a, ha, he⟩ := h₂
    rw [← Bool.not_eq_true, List.all_eq_true]
    intro hforall
    exact absurd he (by simpa using hforall a ha)
  simp [recordAssociation, hall, hrall]

theorem C4_mirrored_consistency_check_witness :
    recordAssociation
        [("origin->ext-assoc:b",
          Lav.originToExtAssociation [⟨.fromSide, ⟨"a"⟩, "t"⟩])] ⟨"a"⟩ ⟨"b"⟩ ("t") =
      .error (.assocInconsistent ("a") ("b")) :=
  C4_mirrored_consistency_check _ ⟨"a"⟩ ⟨"b"⟩ ("t") (by decide)
    ⟨⟨.fromSide, ⟨"a"⟩, "t"⟩, by decide, by decide⟩

/-- C8: For any sequence of node creations (any sequence on which
`createNode` succeeds), `getAllNids` returns the ids of all created nodes
ordered by creation time descending (most-recently-created first): the
result is the id projection of a listing that is a permutation of the
created nodes' tags and is pairwise sorted by `created_at` descending. -/
theorem C8_listing_order (calls : List CreateCall) (s : Substrate)
    (ns : List Nid) (h : createSeq Substrate.empty calls = .ok (s, ns)) :
    ns = calls.map (fun c => c.genNid) ∧
    ∃ tags : List NodeTag,
      getAllNids s = tags.map (fun t => t.nid) ∧
      tags.Perm (calls.map
        (fun c => NodeTag.mk c.genNid (c.args.created_at.getD c.now))) ∧
      tags.Pairwise (fun a b => b.created_at ≤ a.created_at) := by
  obtain ⟨hns, htags⟩ := createSeq_allNidsTags calls Substrate.empty s ns h
  have hempty : allNidsTags Substrate.empty = [] := rfl
  rw [hempty, List.nil_append] at htags
  refine ⟨hns,
    (allNidsTags s).mergeSort (fun a b => decide (b.created_at ≤ a.created_at)),
    getAllNids_eq s, ?_, ?_⟩
  · exact (List.mergeSort_perm _ _).trans (by rw [htags])
  · have hsorted := @List.sorted_mergeSort NodeTag
      (fun a b : NodeTag => decide (b.created_at ≤ a.created_at))
      (fun a b c hab hbc => by
        simp only [decide_eq_true_eq] at hab hbc ⊢
        omega)
      (fun a b => by
        simp only [Bool.or_eq_true, decide_eq_true_eq]
        omega)
      (allNidsTags s)
    exact hsorted.imp (fun hab => by simpa using hab)

theorem C8_listing_order_witness :
    ([("a")] : List Nid) = (([⟨⟨none, none, none, none, none, none, none, none,
        none⟩, "a", fun _ => ("e"), 7⟩] : List CreateCall)).map
      (fun c => c.genNid) ∧
    ∃ tags : List NodeTag,
      getAllNids
        [("nid->node:a",
          Lav.nidToNode (TNodeJson.mk ("a") 0 none none none 7 7) none none),
         ("all-nids", Lav.allNids [⟨"a", 7⟩])] = tags.map (fun t => t.nid) ∧
      tags.Perm
        (([⟨⟨none, none, none, none, none, none, none, none,
          none⟩, "a", fun _ => ("e"), 7⟩] : List CreateCall).map
          (fun c => NodeTag.mk c.genNid (c.args.created_at.getD c.now))) ∧
      tags.Pairwise (fun a b => b.created_at ≤ a.created_at) :=
  C8_listing_order
    [⟨⟨none, none, none, none, none, none, none, none, none⟩, "a",
      fun _ => ("e"), 7⟩] _ _ rfl

/-- C9 counterexample: the snapshot is only an id list, not a data snapshot —
deleting a snapshotted node after iterator construction IS reflected in the
iteration: `next()` fails with a not-found error at that node's position
instead of yielding it or skipping it, contradicting the claim's "nodes
deleted after iterator construction are not reflected in the iteration". -/
theorem C9_deletion_breaks_iteration :
    Iterator.create
        [("all-nids", Lav.allNids [⟨"a", 0⟩]),
         ("nid->node:a",
          Lav.nidToNode (TNodeJson.mk ("a") 0 none none none 0 0) none none)] =
      ⟨["a"], 0⟩ ∧
    deleteNode
        [("all-nids", Lav.allNids [⟨"a", 0⟩]),
         ("nid->node:a",
          Lav.nidToNode (TNodeJson.mk ("a") 0 none none none 0 0) none none)] ("a") =
      .ok [("all-nids", Lav.allNids [])] ∧
    Iterator.next [("all-nids", Lav.allNids [])] ⟨["a"], 0⟩ =
      .error (.iteratorNodeNotFound ("a")) := by
  refine ⟨?_, rfl, rfl⟩
  have hget : YekLavStore.get
      [("all-nids", Lav.allNids [⟨"a", 0⟩]),
       ("nid->node:a",
        Lav.nidToNode (TNodeJson.mk ("a") 0 none none none 0 0) none none)]
      .allNids = some (Lav.allNids [⟨"a", 0⟩]) := rfl
  simp [Iterator.create, getAllNids, hget]

/-- C9 amended: the iterator's id snapshot is frozen at construction —
`next()` only ever yields the record stored under the snapshot id at the
current position (so nodes created after construction, absent from the
snapshot, are never yielded) and returns an end-of-sequence marker once the
snapshot is exhausted; however, the records themselves are fetched from the
live store, so a snapshotted node deleted after construction makes `next()`
fail with a not-found error at its position rather than being skipped. -/
theorem C9_snapshot_iterator (s : Substrate) (it : Iterator) :
    (∀ node it₂, Iterator.next s it = .ok (some node, it₂) →
      ∃ h : it.index < it.nids.length,
        it₂ = ⟨it.nids, it.index + 1⟩ ∧
        ∃ o c, YekLavStore.get s (.nidToNode (it.nids.get ⟨it.index, h⟩)) =
          some (.nidToNode node o c)) ∧
    (it.nids.length ≤ it.index → Iterator.next s it = .ok (none, it)) ∧
    (∀ h : it.index < it.nids.length,
      YekLavStore.get s (.nidToNode (it.nids.get ⟨it.index, h⟩)) = none →
      Iterator.next s it = .error (.iteratorNodeNotFound (it.nids.get ⟨it.index, h⟩))) := by
  refine ⟨?_, ?_, ?_⟩
  · intro node it₂ h
    rw [Iterator.next] at h
    by_cases hlt : it.index < it.nids.length
    · rw [dif_pos hlt] at h
      refine ⟨hlt, ?_⟩
      cases hget : YekLavStore.get s (.nidToNode (it.nids.get ⟨it.index, hlt⟩)) with
      | none => rw [hget] at h; cases h
      | some lav =>
        rw [hget] at h
        cases lav with
        | nidToNode v o c =>
          simp only [NodeUtil.fromJson, Except.ok.injEq, Prod.mk.injEq,
            Option.some.injEq] at h
          exact ⟨h.2.symm, o, c, by rw [h.1]⟩
        | allNids v => cases h
        | originToNid v => cases h
        | nidToEdge v => cases h
        | originToActivity v => cases h
        | extPipeline v => cases h
        | extPipelineToNid v => cases h
        | originToExtAssociation v => cases h
        | nidToNodeSimilaritySearchInfo v => cases h
        | userAccountInfo v => cases h
    · rw [dif_neg hlt] at h
      simp only [Except.ok.injEq, Prod.mk.injEq] at h
      cases h.1
  · intro hle
    rw [Iterator.next, dif_neg (Nat.not_lt.mpr hle)]
  · intro h hnone
    rw [Iterator.next, dif_pos h, hnone]

theorem C9_snapshot_iterator_witness :
    Iterator.next Substrate.empty ⟨["a"], 0⟩ =
      .error (.iteratorNodeNotFound ("a")) :=
  (C9_snapshot_iterator Substrate.empty ⟨["a"], 0⟩).2.2 (by decide) rfl

/-- C5 counterexample: the stored ingestion watermark is not monotonically
advanced — `advanceUserIngestionProgress` overwrites it unconditionally, so
advancing pipeline `p` to 5 and then to 3 leaves the watermark at 3, smaller
than the previously stored 5. -/
theorem C5_watermark_regression :
    advanceUserIngestionProgress Substrate.empty ⟨"p"⟩ 5 =
      .ok [("ext-pipe:p", Lav.extPipeline 5)] ∧
    advanceUserIngestionProgress [("ext-pipe:p", Lav.extPipeline 5)] ⟨"p"⟩ 3 =
      .ok [("ext-pipe:p", Lav.extPipeline 3)] ∧
    (getUserIngestionProgress [("ext-pipe:p", Lav.extPipeline 3)]
      ⟨"p"⟩).ingested_until = 3 ∧
    (3 : Nat) < 5 := by
  refine ⟨?_, ?_, rfl, by decide⟩ <;> rfl

/-- C5 amended: the stored ingestion watermark is last-writer-wins — after
`advanceUserIngestionProgress` the watermark read back equals the value the
caller supplied, whether larger or smaller than the previous one, so it is
monotonic only when callers supply non-decreasing values. -/
theorem C5_watermark_last_writer_wins (s : Substrate)
    (epid : UserExternalPipelineId) (v : Nat) :
    ∃ s₂, advanceUserIngestionProgress s epid v = .ok s₂ ∧
      getUserIngestionProgress s₂ epid = ⟨epid, v⟩ := by
  have hkinds : ∀ it ∈ [YekLav.mk (Yek.extPipeline epid) (Lav.extPipeline v)],
      it.yek.kind = it.lav.kind := by
    intro it hit
    simp only [List.mem_singleton] at hit
    subst hit
    rfl
  have hkeys : (keysOf [YekLav.mk (Yek.extPipeline epid) (Lav.extPipeline v)]).Nodup := by
    simp [keysOf]
  have hok := set_ok s _ hkinds hkeys
  refine ⟨bulkWrite s (recordsOf [YekLav.mk (Yek.extPipeline epid) (Lav.extPipeline v)]),
    ?_, ?_⟩
  · simpa [advanceUserIngestionProgress] using hok
  · have hget := get_set s _ _ (.extPipeline epid) hok hkinds hkeys
    simp only [List.find?, beq_self_eq_true] at hget
    simp [getUserIngestionProgress, hget]

end ArchStorage
